import Mathlib

/-! Verification of `alamode.c`, the avrdude programmer for the Alamode board.

Shallow embedding of `alamode_read_sig_bytes`, `gpioHardwareRevision`,
`alamode_reset` and `setup_io` from `src/alamode.c`, followed by the theorems
settled about them.
-/

namespace Alamode

/-! ## Signature read: data model -/

/-- An `unsigned char`. -/
abbrev Byte := Fin 256

/-- An `unsigned char` array seen as a total map from index to byte. -/
abbrev Bytes := Nat → Byte

/-- The assignment `a[i] = v`. -/
def poke (a : Bytes) (i : Nat) (v : Byte) : Bytes :=
  fun j => if j = i then v else a j

/-- The bytes `a[0] .. a[n-1]` handed to the serial layer. -/
def peekn (a : Bytes) (n : Nat) : List Byte :=
  (List.range n).map a

/-- The serial layer storing `data` at `a[0], a[1], ...`. -/
def store (a : Bytes) (data : List Byte) : Bytes :=
  fun j => if h : j < data.length then data.get ⟨j, h⟩ else a j

/-- The protocol constants `alamode_read_sig_bytes` uses. They are macros of
`stk500_private.h`, a header that is not among the sources, so the embedding
takes the table as a parameter. Each is a byte value of the wire protocol. -/
structure StkConsts where
  Cmnd_STK_READ_SIGN : Byte
  Sync_CRC_EOP : Byte
  Resp_STK_OK : Byte
  Resp_STK_INSYNC : Byte
  Resp_STK_NOSYNC : Byte

/-- The fields of `AVRMEM` the function touches: `m->size` and `m->buf`. -/
structure AVRMEM where
  size : Int
  buf : Bytes

/-- The external serial layer behind `pgm->fd`, with its own state `σ`.
`serial_send` gets the frame and yields a return code; `serial_recv` gets the
requested length and yields the bytes it stored at the start of the buffer
together with its return code. -/
structure Serial (σ : Type) where
  serial_send : σ → List Byte → σ × Int
  serial_recv : σ → Nat → σ × List Byte × Int

/-- One call into the serial layer, as seen on the wire. -/
inductive WireEvent where
  | send (frame : List Byte)
  | recv (len : Nat)
  deriving DecidableEq, Repr

/-- The messages `alamode_read_sig_bytes` prints on `stderr`. -/
inductive Diag where
  | memsize_too_small
  | out_of_sync
  | protocol_error (expect : Byte) (resp : Byte)
  deriving DecidableEq, Repr

/-- Everything observable after a call of `alamode_read_sig_bytes`: the return
value, the target region, the serial state, the calls made into the serial
layer (in order) and the messages printed. -/
structure SigResult (σ : Type) where
  ret : Int
  m : AVRMEM
  fd : σ
  wire : List WireEvent
  err : List Diag

/-- The serial port as `alamode_read_sig_bytes` holds it in `pgm->fd`: the
state of the serial layer and the record of the calls made into it. -/
structure Port (σ : Type) where
  fd : σ
  wire : List WireEvent

/-- The call `serial_send(&pgm->fd, buf, len)` with the `len` bytes of `buf` as
`frame`: the serial layer runs and the call is recorded; the result is the
port after the call and the return value. -/
def serial_send {σ : Type} (T : Serial σ) (p : Port σ) (frame : List Byte) : Port σ × Int :=
  (⟨(T.serial_send p.fd frame).1, p.wire ++ [WireEvent.send frame]⟩,
    (T.serial_send p.fd frame).2)

/-- The call `serial_recv(&pgm->fd, buf, len)`: the serial layer runs and the
call is recorded; the result is the port after the call, the bytes stored at
the start of `buf` and the return value. -/
def serial_recv {σ : Type} (T : Serial σ) (p : Port σ) (len : Nat) :
    Port σ × List Byte × Int :=
  (⟨(T.serial_recv p.fd len).1, p.wire ++ [WireEvent.recv len]⟩,
    (T.serial_recv p.fd len).2.1, (T.serial_recv p.fd len).2.2)

/-- The function `alamode_read_sig_bytes` of `alamode.c`. `stack` is the
indeterminate initial content of the local `buf[32]`; the port starts with the
serial state `fd` and an empty record, and the result carries the port as the
calls made by the function left it. -/
def alamode_read_sig_bytes {σ : Type} (k : StkConsts) (T : Serial σ) (fd : σ)
    (stack : Bytes) (m : AVRMEM) : SigResult σ :=
  let pgm : Port σ := ⟨fd, []⟩
  if m.size < 3 then
    ⟨-1, m, pgm.fd, pgm.wire, [Diag.memsize_too_small]⟩
  else
    let buf0 := poke (poke stack 0 k.Cmnd_STK_READ_SIGN) 1 k.Sync_CRC_EOP
    let sent := serial_send T pgm (peekn buf0 2)
    let got := serial_recv T sent.1 5
    let buf := store buf0 (got.2.1.take 5)
    if got.2.2 < 0 then
      ⟨-1, m, got.1.fd, got.1.wire, []⟩
    else if buf 0 = k.Resp_STK_NOSYNC then
      ⟨-1, m, got.1.fd, got.1.wire, [Diag.out_of_sync]⟩
    else if buf 0 ≠ k.Resp_STK_INSYNC then
      ⟨-2, m, got.1.fd, got.1.wire, [Diag.protocol_error k.Resp_STK_INSYNC (buf 0)]⟩
    else if buf 4 ≠ k.Resp_STK_OK then
      ⟨-3, m, got.1.fd, got.1.wire, [Diag.protocol_error k.Resp_STK_OK (buf 4)]⟩
    else
      ⟨3, ⟨m.size, poke (poke (poke m.buf 0 (buf 1)) 1 (buf 2)) 2 (buf 3)⟩,
        got.1.fd, got.1.wire, []⟩

/-- The byte values of the STK500 version 1 protocol, used as a concrete
constant table: in-sync `0x14` and OK `0x10` are the values the specification
quotes; the other three are the protocol's published values. -/
def stk500v1 : StkConsts :=
  ⟨0x75, 0x20, 0x10, 0x14, 0x15⟩

/-- A scripted serial layer without state: `serial_send` answers `sendRc`,
`serial_recv` stores `data` and answers `recvRc`. -/
def scripted (sendRc : Int) (data : List Byte) (recvRc : Int) : Serial Unit :=
  ⟨fun _ _ => ((), sendRc), fun _ _ => ((), data, recvRc)⟩

/-- A region of `size` bytes, all zero. -/
def zeroMem (size : Int) : AVRMEM :=
  ⟨size, fun _ => 0⟩

/-- A local buffer whose indeterminate content happens to be all zero. -/
def zeroStack : Bytes :=
  fun _ => 0

/-- What `serial_recv` answers in the call made by `alamode_read_sig_bytes`:
the serial state it runs in is the one left by the send of the request. -/
def recvReply {σ : Type} (k : StkConsts) (T : Serial σ) (fd : σ) : σ × List Byte × Int :=
  T.serial_recv (T.serial_send fd [k.Cmnd_STK_READ_SIGN, k.Sync_CRC_EOP]).1 5

/-- What `serial_send` answers in the call made by `alamode_read_sig_bytes`. -/
def sendReply {σ : Type} (k : StkConsts) (T : Serial σ) (fd : σ) : σ × Int :=
  T.serial_send fd [k.Cmnd_STK_READ_SIGN, k.Sync_CRC_EOP]

/-- The local `buf` as `alamode_read_sig_bytes` finds it after `serial_recv`
returned: the request frame in `buf[0..1]`, overwritten by what was received. -/
def rxBuf {σ : Type} (k : StkConsts) (T : Serial σ) (fd : σ) (stack : Bytes) : Bytes :=
  store (poke (poke stack 0 k.Cmnd_STK_READ_SIGN) 1 k.Sync_CRC_EOP)
    ((recvReply k T fd).2.1.take 5)

/-- A local buffer whose indeterminate content holds `0x0F, 0x10` at indices
3 and 4, as an earlier exchange through the same stack slot would leave it. -/
def staleStack : Bytes :=
  store zeroStack [0x14, 0x00, 0x00, 0x0F, 0x10]

/-- The serial layer `T` with the return value of `serial_send` replaced by
`rc`; what it does to the serial state and what `serial_recv` does are kept. -/
def withSendRc {σ : Type} (T : Serial σ) (rc : Int) : Serial σ :=
  ⟨fun s frame => ((T.serial_send s frame).1, rc), T.serial_recv⟩

/-- Modelled from the spec: what the specification says of the sentinel values
that `stk500_private.h` (a header that is not among the sources) declares. The
in-sync sentinel is `0x14`, the OK sentinel is `0x10`, and `0x15` is "not
in-sync, not the out-of-sync sentinel either"; the specification gives no
value for the out-of-sync sentinel. -/
def specSentinels (k : StkConsts) : Bool :=
  k.Resp_STK_INSYNC == 0x14 && k.Resp_STK_OK == 0x10 && k.Resp_STK_NOSYNC != 0x15

/-- Modelled from the spec: a constant table with the sentinel values the
specification states. For the out-of-sync sentinel, whose value the
specification does not give, the table holds `0x16`, one of the values other
than `0x14` and `0x15`; the command code and the end-of-packet marker are those
of `stk500v1`. -/
def specTable : StkConsts :=
  ⟨0x75, 0x20, 0x10, 0x14, 0x16⟩

/-- A serial layer whose state is the list of the calls it has served: each
`serial_send` and each `serial_recv` appends itself; the send answers 0, the
receive stores nothing and answers -1. -/
def recorder : Serial (List WireEvent) :=
  ⟨fun s frame => (s ++ [WireEvent.send frame], 0),
    fun s len => (s ++ [WireEvent.recv len], [], -1)⟩

/-! ## Hardware revision: data model -/

/-- The C string held by a `char` buffer: the characters before the first NUL. -/
def cstr (buf : List Char) : List Char :=
  buf.takeWhile (fun c => c != '\x00')

/-- The characters one call `fgets(buf, n + 1, filp)` stores, and the unread
rest of the stream: at most `n` characters, stopping after a newline. -/
def fgetsTake : Nat → List Char → List Char × List Char
  | 0, s => ([], s)
  | _ + 1, [] => ([], [])
  | n + 1, c :: s =>
    if c = '\n' then ([c], s)
    else ((c :: (fgetsTake n s).1), (fgetsTake n s).2)

/-- One call `fgets(buf, size, filp)` on the unread rest `s` of the stream:
`none` (the NULL return) at end of file. -/
def fgets (size : Nat) (s : List Char) : Option (List Char × List Char) :=
  if s = [] then none else some (fgetsTake (size - 1) s)

/-- The buffers the successive calls `fgets(buf, sizeof(buf), filp)` of the
`while` loop deliver, `sizeof(buf)` being 512; at most `fuel` calls. -/
def readLines : Nat → List Char → List (List Char)
  | 0, _ => []
  | fuel + 1, s =>
    match fgets 512 s with
    | none => []
    | some (buf, rest) => buf :: readLines fuel rest

/-- The buffers the `while` loop reads from a file of the given content. Every
call of `fgets` takes at least one character, so `content.length` calls reach
the end of the file. -/
def fileLines (content : List Char) : List (List Char) :=
  readLines content.length content

/-- The test `!strncasecmp(pat, buf, n)`, for a pattern without NUL: the first
`n` characters agree up to the case of letters. -/
def strncasecmp_eq (pat buf : List Char) (n : Nat) : Bool :=
  (pat.take n).map Char.toLower == ((cstr buf).take n).map Char.toLower

/-- The test `strstr(buf, pat) != NULL`. -/
def strstr_found (buf pat : List Char) : Bool :=
  (cstr buf).tails.any (fun t => pat.isPrefixOf t)

/-- The C function `isspace` in the C locale. -/
def isspace (c : Char) : Bool :=
  c = ' ' || c = '\t' || c = '\n' || c = '\x0b' || c = '\x0c' || c = '\r'

/-- The value of a hexadecimal digit, `none` for any other character. -/
def hexval (c : Char) : Option Nat :=
  if '0' ≤ c ∧ c ≤ '9' then some (c.toNat - '0'.toNat)
  else if 'a' ≤ c ∧ c ≤ 'f' then some (c.toNat - 'a'.toNat + 10)
  else if 'A' ≤ c ∧ c ≤ 'F' then some (c.toNat - 'A'.toNat + 10)
  else none

/-- The longest run of hexadecimal digits at the head of `s`, read into the
accumulator: the value, the number of digits, the rest. -/
def hexdigits : Nat → Nat → List Char → Nat × Nat × List Char
  | acc, cnt, [] => (acc, cnt, [])
  | acc, cnt, c :: s =>
    match hexval c with
    | some d => hexdigits (acc * 16 + d) (cnt + 1) s
    | none => (acc, cnt, c :: s)

/-- What the directive `%x` does on the input. -/
inductive HexConv where
  | input_failure
  | matching_failure
  | value (v : Nat) (rest : List Char)
  deriving DecidableEq, Repr

/-- The conversion into the `unsigned` object: the magnitude `v`, negated
when the number had a minus sign, modulo `2 ^ 32`. -/
def toUnsigned (neg : Bool) (v : Nat) : Nat :=
  if neg then (2 ^ 32 - v % 2 ^ 32) % 2 ^ 32 else v % 2 ^ 32

/-- The magnitude after the optional sign of a `%x` item: an optional `0x` or
`0X` followed by at least one hexadecimal digit, or plain hexadecimal digits.
A `0x` with no digit after it is a matching failure, as ISO C has it; the GNU
C library converts that input to 0 instead and goes on to `%c`. -/
def scan_hex_body (neg : Bool) (s : List Char) : HexConv :=
  match s with
  | '0' :: x :: t =>
    if x = 'x' ∨ x = 'X' then
      match hexdigits 0 0 t with
      | (_, 0, _) => HexConv.matching_failure
      | (v, _, rest) => HexConv.value (toUnsigned neg v) rest
    else
      match hexdigits 0 0 s with
      | (v, _, rest) => HexConv.value (toUnsigned neg v) rest
  | _ =>
    match hexdigits 0 0 s with
    | (_, 0, _) => HexConv.matching_failure
    | (v, _, rest) => HexConv.value (toUnsigned neg v) rest

/-- The directive `%x` of `sscanf` as ISO C defines it: white space is
skipped, then an optionally signed hexadecimal integer in the format `strtoul`
expects for base 16 is read. -/
def scan_hex (s : List Char) : HexConv :=
  match s.dropWhile isspace with
  | [] => HexConv.input_failure
  | '-' :: t => scan_hex_body true t
  | '+' :: t => scan_hex_body false t
  | t => scan_hex_body false t

/-- The call `sscanf(s, "%x%c", &rev, &term)`: the return value, the value
stored in `rev` if one was stored, the character stored in `term` if one was.
The return value is `EOF` (-1) when the input ends before the first
conversion, 0 when `%x` does not match, 1 when `%x` matched and no character
is left for `%c`, 2 when both were stored. -/
def sscanf_x_c (s : List Char) : Int × Option Nat × Option Char :=
  match scan_hex s with
  | HexConv.input_failure => (-1, none, none)
  | HexConv.matching_failure => (0, none, none)
  | HexConv.value v [] => (1, some v, none)
  | HexConv.value v (c :: _) => (2, some v, some c)

/-- The globals `gpioHardwareRevision` reads and writes: its `static unsigned
rev`, and the file-level `piModel` and `piPeriphBase`. -/
structure PiState where
  rev : Nat
  piModel : Nat
  piPeriphBase : Nat
  deriving DecidableEq, Repr

/-- The globals as their initialisers set them at program start. -/
def PiState.start : PiState :=
  ⟨0, 1, 0x20000000⟩

/-- The variables the `while` loop of `gpioHardwareRevision` works on: the
globals and the local `chars`. -/
structure Scan where
  rev : Nat
  piModel : Nat
  piPeriphBase : Nat
  chars : Nat
  deriving DecidableEq, Repr

/-- The first `if` of the loop body: the architecture line. -/
def scanModel (s : Scan) (buf : List Char) : Scan :=
  if s.piModel = 0 then
    if strncasecmp_eq "model name".toList buf 10 then
      if strstr_found buf "ARMv6".toList then
        ⟨s.rev, 1, 0x20000000, 4⟩
      else if strstr_found buf "ARMv7".toList then
        ⟨s.rev, 2, 0x3F000000, 6⟩
      else s
    else s
  else s

/-- The string `buf + strlen(buf) - (chars + 1)` handed to `sscanf`. -/
def revTail (buf : List Char) (chars : Nat) : List Char :=
  (cstr buf).drop ((cstr buf).length - (chars + 1))

/-- The second `if` of the loop body: the revision line. -/
def scanRevision (s : Scan) (buf : List Char) : Scan :=
  if strncasecmp_eq "revision".toList buf 8 then
    match sscanf_x_c (revTail buf s.chars) with
    | (2, some v, some term) =>
      if term ≠ '\n' then ⟨0, s.piModel, s.piPeriphBase, s.chars⟩
      else ⟨v, s.piModel, s.piPeriphBase, s.chars⟩
    | (_, some v, _) => ⟨v, s.piModel, s.piPeriphBase, s.chars⟩
    | (_, none, _) => s
  else s

/-- One turn of the `while` loop on the buffer `fgets` delivered. -/
def scanLine (s : Scan) (buf : List Char) : Scan :=
  scanRevision (scanModel s buf) buf

/-- The `while` loop over the buffers read. -/
def scanLines (s : Scan) (bufs : List (List Char)) : Scan :=
  bufs.foldl scanLine s

/-- The loop variables at the `return` of an uncached call of
`gpioHardwareRevision`: `file` is the content of `/proc/cpuinfo`, `none` when
`fopen` fails. -/
def scanFile (file : Option (List Char)) (g : PiState) : Scan :=
  match file with
  | none => ⟨g.rev, 0, g.piPeriphBase, 4⟩
  | some content => scanLines ⟨g.rev, 0, g.piPeriphBase, 4⟩ (fileLines content)

/-- The function `gpioHardwareRevision` of `alamode.c`: the value returned and
the globals after the call. -/
def gpioHardwareRevision (file : Option (List Char)) (g : PiState) : Nat × PiState :=
  if g.rev ≠ 0 then (g.rev, g)
  else
    ((scanFile file g).rev,
      ⟨(scanFile file g).rev, (scanFile file g).piModel, (scanFile file g).piPeriphBase⟩)

/-- A buffer the first `if` of the loop body acts on while `piModel` is 0: it
starts with `model name` and holds one of the two markers. -/
def decidesModel (buf : List Char) : Bool :=
  strncasecmp_eq "model name".toList buf 10 &&
    (strstr_found buf "ARMv6".toList || strstr_found buf "ARMv7".toList)

/-- The value of `chars` in the `sscanf` call of turn `i` of the loop (turns
counted from 0) of an uncached call on a file of the given content. -/
def revWidth (content : List Char) (g : PiState) (i : Nat) : Nat :=
  (scanModel (scanLines ⟨g.rev, 0, g.piPeriphBase, 4⟩ ((fileLines content).take i))
    ((fileLines content).getD i [])).chars

/-- A platform description with two architecture lines, the later one first. -/
def mixedCpuinfo : List Char :=
  ("model name\t: ARMv7 Processor rev 5 (v7l)\n" ++
    "model name\t: ARMv6-compatible processor rev 7 (v6l)\n" ++
    "Revision\t: 000e\n").toList

/-- The platform description of a board of the later family. -/
def pi2Cpuinfo : List Char :=
  ("processor\t: 0\n" ++
    "model name\t: ARMv7 Processor rev 5 (v7l)\n" ++
    "Hardware\t: BCM2709\n" ++
    "Revision\t: a01041\n").toList

/-! ## GPIO reset and register mapping: data model -/

/-- An effect of the reset code on the outside, in program order: a store to
a word of the mapped register block, or a sleep. -/
inductive GpioEvent where
  | write (word : Nat) (value : Nat)
  | usleep (usec : Nat)
  deriving DecidableEq, Repr

/-- The register block behind the pointer `gpio`, as an array of 32-bit words
indexed from `gpio`, together with the log of the stores and sleeps made. -/
structure RegBlock where
  mem : Nat → Nat
  log : List GpioEvent

/-- A read `*(gpio + i)` of an `unsigned` word. -/
def reg_read (r : RegBlock) (i : Nat) : Nat :=
  r.mem i % 2 ^ 32

/-- A store `*(gpio + i) = v` of an `unsigned` word. -/
def reg_write (r : RegBlock) (i : Nat) (v : Nat) : RegBlock :=
  ⟨fun j => if j = i then v % 2 ^ 32 else r.mem j, r.log ++ [GpioEvent.write i (v % 2 ^ 32)]⟩

/-- The call `usleep(usec)`. -/
def usleep (r : RegBlock) (usec : Nat) : RegBlock :=
  ⟨r.mem, r.log ++ [GpioEvent.usleep usec]⟩

/-- The operator `~` on an `int` in `0 .. 2^31 - 1`, converted to `unsigned`. -/
def not32 (x : Nat) : Nat :=
  2 ^ 32 - 1 - x

/-- The macro `INP_GPIO(g)`: `*(gpio+((g)/10)) &= ~(7<<(((g)%10)*3))`. -/
def INP_GPIO (r : RegBlock) (g : Nat) : RegBlock :=
  reg_write r (g / 10) (reg_read r (g / 10) &&& not32 (7 <<< ((g % 10) * 3)))

/-- The macro `OUT_GPIO(g)`: `*(gpio+((g)/10)) |= (1<<(((g)%10)*3))`. -/
def OUT_GPIO (r : RegBlock) (g : Nat) : RegBlock :=
  reg_write r (g / 10) (reg_read r (g / 10) ||| (1 <<< ((g % 10) * 3)))

/-- The macro `GPIO_SET`, `*(gpio+7)`: the index of the word. -/
def GPIO_SET : Nat := 7

/-- The macro `GPIO_CLR`, `*(gpio+10)`: the index of the word. -/
def GPIO_CLR : Nat := 10

/-- The function `alamode_reset` of `alamode.c`. -/
def alamode_reset (r : RegBlock) : RegBlock :=
  let r1 := INP_GPIO r 16
  let r2 := OUT_GPIO r1 16
  let r3 := reg_write r2 GPIO_CLR (1 <<< 16)
  let r4 := usleep r3 (1000 * 1000)
  let r5 := reg_write r4 GPIO_SET (1 <<< 16)
  usleep r5 (50 * 1000)

/-- The stores and sleeps of one call of `alamode_reset` on a block of the
given content. -/
def resetTrace (mem : Nat → Nat) : List GpioEvent :=
  (alamode_reset ⟨mem, []⟩).log

/-- The values stored to word `word`, in order. -/
def writesTo (word : Nat) (log : List GpioEvent) : List Nat :=
  log.filterMap (fun e =>
    match e with
    | GpioEvent.write w v => if w = word then some v else none
    | GpioEvent.usleep _ => none)

/-- The macro `PAGE_SIZE`. -/
def PAGE_SIZE : Nat := 4 * 1024

/-- The macro `BLOCK_SIZE`. -/
def BLOCK_SIZE : Nat := 4 * 1024

/-- The adjustment of `gpio_mem` in `setup_io`:
`if ((unsigned long)gpio_mem % PAGE_SIZE)
   gpio_mem += PAGE_SIZE - ((unsigned long)gpio_mem % PAGE_SIZE);`
on the address as a number. -/
def alignPage (gpio_mem : Nat) : Nat :=
  if gpio_mem % PAGE_SIZE ≠ 0 then gpio_mem + (PAGE_SIZE - gpio_mem % PAGE_SIZE)
  else gpio_mem

/-- The arguments of the `mmap` call of `setup_io` that vary: the address, the
length, the file descriptor and the offset. -/
structure MmapCall where
  addr : Nat
  length : Nat
  fd : Int
  offset : Nat
  deriving DecidableEq, Repr

/-- How `setup_io` ends. -/
inductive SetupEnd where
  | exit_open
  | exit_alloc
  | exit_mmap (call : MmapCall)
  | done (call : MmapCall) (gpio : Int)
  deriving DecidableEq, Repr

/-- The function `setup_io` of `alamode.c`. `open_ret` is what `open` returns,
`cpuinfo` the platform description, `malloc_ret` the address `malloc` returns
(0 for `NULL`), `mmap_ret` what `mmap` returns for the call made. The result
is how the function ends and the globals of `gpioHardwareRevision`. -/
def setup_io (open_ret : Int) (cpuinfo : Option (List Char)) (malloc_ret : Nat)
    (mmap_ret : MmapCall → Int) (g : PiState) : SetupEnd × PiState :=
  if open_ret < 0 then (SetupEnd.exit_open, g)
  else
    let g1 := (gpioHardwareRevision cpuinfo g).2
    let gpio_base := (g1.piPeriphBase + 0x200000) % 2 ^ 32
    if malloc_ret = 0 then (SetupEnd.exit_alloc, g1)
    else
      let call : MmapCall := ⟨alignPage malloc_ret, BLOCK_SIZE, open_ret, gpio_base⟩
      if mmap_ret call < 0 then (SetupEnd.exit_mmap call, g1)
      else (SetupEnd.done call (mmap_ret call), g1)

/-- The `mmap` call `setup_io` makes, if it gets that far. -/
def mmapCallOf (e : SetupEnd) : Option MmapCall :=
  match e with
  | SetupEnd.exit_open => none
  | SetupEnd.exit_alloc => none
  | SetupEnd.exit_mmap call => some call
  | SetupEnd.done call _ => some call

/-- A register block whose words all read `0xFFFFFFFF`, with an empty log. -/
def allOnes : RegBlock :=
  ⟨fun _ => 0xFFFFFFFF, []⟩

/-- The number a string of hexadecimal digits denotes. -/
def hexNum (hex : List Char) : Nat :=
  hex.foldl (fun acc c => acc * 16 + (hexval c).getD 0) 0

/-- A platform description of one line of 535 characters: `Revision`, a tab
and a colon, 520 blanks, then `000e` and a newline. -/
def longRevisionCpuinfo : List Char :=
  "Revision\t:".toList ++ List.replicate 520 ' ' ++ "000e\n".toList

/-- A platform description whose revision line is the last line of the file
and has no newline. -/
def unterminatedCpuinfo : List Char :=
  "Revision\t: 000e".toList

/-- A platform description with two revision lines, the second without a
hexadecimal number at its end. -/
def staleCpuinfo : List Char :=
  ("Revision\t: 000e\n" ++ "Revision\t: none\n").toList

/-- The value of `rev` at the end of turn `i` of the loop (turns counted from
0) of an uncached call on a file of the given content. -/
def revAfter (content : List Char) (g : PiState) (i : Nat) : Nat :=
  (scanLines ⟨g.rev, 0, g.piPeriphBase, 4⟩ ((fileLines content).take (i + 1))).rev

/-- A platform description whose revision line has a character other than a
newline after the number. -/
def badTerminatorCpuinfo : List Char :=
  "Revision\t: 00e!\n".toList

/-- The platform description of a board of the legacy family. -/
def pi1Cpuinfo : List Char :=
  ("processor\t: 0\n" ++
    "model name\t: ARMv6-compatible processor rev 7 (v6l)\n" ++
    "Hardware\t: BCM2708\n" ++
    "Revision\t: 000e\n").toList

/-! ## Theorems -/

/-! ### Signature read: unfolding lemmas -/

theorem peekn_frame (stack : Bytes) (a b : Byte) :
    peekn (poke (poke stack 0 a) 1 b) 2 = [a, b] := by
  simp [peekn, poke, List.range, List.range.loop]

theorem read_sig_eq {σ : Type} (k : StkConsts) (T : Serial σ) (fd : σ)
    (stack : Bytes) (m : AVRMEM) :
    alamode_read_sig_bytes k T fd stack m =
      if m.size < 3 then
        ⟨-1, m, fd, [], [Diag.memsize_too_small]⟩
      else
        let wire := [WireEvent.send [k.Cmnd_STK_READ_SIGN, k.Sync_CRC_EOP], WireEvent.recv 5]
        let got := recvReply k T fd
        let buf := rxBuf k T fd stack
        if got.2.2 < 0 then
          ⟨-1, m, got.1, wire, []⟩
        else if buf 0 = k.Resp_STK_NOSYNC then
          ⟨-1, m, got.1, wire, [Diag.out_of_sync]⟩
        else if buf 0 ≠ k.Resp_STK_INSYNC then
          ⟨-2, m, got.1, wire, [Diag.protocol_error k.Resp_STK_INSYNC (buf 0)]⟩
        else if buf 4 ≠ k.Resp_STK_OK then
          ⟨-3, m, got.1, wire, [Diag.protocol_error k.Resp_STK_OK (buf 4)]⟩
        else
          ⟨3, ⟨m.size, poke (poke (poke m.buf 0 (buf 1)) 1 (buf 2)) 2 (buf 3)⟩,
            got.1, wire, []⟩ := by
  unfold alamode_read_sig_bytes serial_recv serial_send
  simp only [peekn_frame, recvReply, rxBuf, List.nil_append, List.singleton_append]

theorem rxBuf_five {σ : Type} (k : StkConsts) (T : Serial σ) (fd : σ) (stack : Bytes)
    (b0 b1 b2 b3 b4 : Byte) (hdata : (recvReply k T fd).2.1 = [b0, b1, b2, b3, b4]) :
    rxBuf k T fd stack 0 = b0 ∧ rxBuf k T fd stack 1 = b1 ∧ rxBuf k T fd stack 2 = b2 ∧
      rxBuf k T fd stack 3 = b3 ∧ rxBuf k T fd stack 4 = b4 := by
  simp [rxBuf, store, hdata]

/-! ### Signature read: the claims -/

/-- C1: when the region has size at least 3 and a successful `serial_recv`
delivers `b0 .. b4` with `b0` the in-sync sentinel and `b4` the OK sentinel,
`alamode_read_sig_bytes` returns 3 and `m->buf[0..2]` hold `b1, b2, b3` in wire
order. -/
theorem read_sig_bytes_success {σ : Type} (k : StkConsts) (T : Serial σ) (fd : σ)
    (stack : Bytes) (m : AVRMEM) (b0 b1 b2 b3 b4 : Byte)
    (hsize : 3 ≤ m.size)
    (hrc : 0 ≤ (recvReply k T fd).2.2)
    (hdata : (recvReply k T fd).2.1 = [b0, b1, b2, b3, b4])
    (h0 : b0 = k.Resp_STK_INSYNC) (h4 : b4 = k.Resp_STK_OK)
    (hne : k.Resp_STK_INSYNC ≠ k.Resp_STK_NOSYNC) :
    (alamode_read_sig_bytes k T fd stack m).ret = 3 ∧
      (alamode_read_sig_bytes k T fd stack m).m.buf 0 = b1 ∧
      (alamode_read_sig_bytes k T fd stack m).m.buf 1 = b2 ∧
      (alamode_read_sig_bytes k T fd stack m).m.buf 2 = b3 := by
  obtain ⟨e0, e1, e2, e3, e4⟩ := rxBuf_five k T fd stack b0 b1 b2 b3 b4 hdata
  rw [read_sig_eq]
  simp [not_lt.mpr hsize, not_lt.mpr hrc, e0, e1, e2, e3, e4, h0, h4, hne, poke]

/-- C1, at the response `[0x14, 0x1E, 0x95, 0x0F, 0x10]`: the signature read is
`[0x1E, 0x95, 0x0F]`. -/
theorem read_sig_bytes_success_witness :
    (alamode_read_sig_bytes stk500v1 (scripted 0 [0x14, 0x1E, 0x95, 0x0F, 0x10] 0) ()
        zeroStack (zeroMem 3)).ret = 3 ∧
      (alamode_read_sig_bytes stk500v1 (scripted 0 [0x14, 0x1E, 0x95, 0x0F, 0x10] 0) ()
        zeroStack (zeroMem 3)).m.buf 0 = 0x1E ∧
      (alamode_read_sig_bytes stk500v1 (scripted 0 [0x14, 0x1E, 0x95, 0x0F, 0x10] 0) ()
        zeroStack (zeroMem 3)).m.buf 1 = 0x95 ∧
      (alamode_read_sig_bytes stk500v1 (scripted 0 [0x14, 0x1E, 0x95, 0x0F, 0x10] 0) ()
        zeroStack (zeroMem 3)).m.buf 2 = 0x0F :=
  read_sig_bytes_success stk500v1 (scripted 0 [0x14, 0x1E, 0x95, 0x0F, 0x10] 0) ()
    zeroStack (zeroMem 3) 0x14 0x1E 0x95 0x0F 0x10
    (by decide) (by decide) rfl rfl rfl (by decide)

/-- C2: with a region of size below 3, `alamode_read_sig_bytes` returns -1
after printing the size message, calls neither `serial_send` nor `serial_recv`,
and leaves the region and the serial state as they were. -/
theorem read_sig_bytes_capacity {σ : Type} (k : StkConsts) (T : Serial σ) (fd : σ)
    (stack : Bytes) (m : AVRMEM) (hsize : m.size < 3) :
    (alamode_read_sig_bytes k T fd stack m).ret = -1 ∧
      (alamode_read_sig_bytes k T fd stack m).wire = [] ∧
      (alamode_read_sig_bytes k T fd stack m).m = m ∧
      (alamode_read_sig_bytes k T fd stack m).fd = fd ∧
      (alamode_read_sig_bytes k T fd stack m).err = [Diag.memsize_too_small] := by
  rw [read_sig_eq]
  simp [hsize]

/-- C2, at a region of capacity 2 facing a transport that would deliver a
well-formed response. -/
theorem read_sig_bytes_capacity_witness :
    (zeroMem 2).size < 3 ∧
      (alamode_read_sig_bytes stk500v1 (scripted 0 [0x14, 0x1E, 0x95, 0x0F, 0x10] 0) ()
        zeroStack (zeroMem 2)).ret = -1 ∧
      (alamode_read_sig_bytes stk500v1 (scripted 0 [0x14, 0x1E, 0x95, 0x0F, 0x10] 0) ()
        zeroStack (zeroMem 2)).wire = [] :=
  have h := read_sig_bytes_capacity stk500v1 (scripted 0 [0x14, 0x1E, 0x95, 0x0F, 0x10] 0) ()
    zeroStack (zeroMem 2) (by decide)
  ⟨by decide, h.1, h.2.1⟩

/-- C3: with a region of size at least 3, when `serial_recv` returns a negative
value `alamode_read_sig_bytes` returns -1 without a message and the region is
unmodified, whatever `serial_recv` stored in the local buffer. -/
theorem read_sig_bytes_recv_failure {σ : Type} (k : StkConsts) (T : Serial σ) (fd : σ)
    (stack : Bytes) (m : AVRMEM)
    (hsize : 3 ≤ m.size) (hrc : (recvReply k T fd).2.2 < 0) :
    (alamode_read_sig_bytes k T fd stack m).ret = -1 ∧
      (alamode_read_sig_bytes k T fd stack m).err = [] ∧
      (alamode_read_sig_bytes k T fd stack m).m = m := by
  rw [read_sig_eq]
  simp [not_lt.mpr hsize, hrc]

/-- C3, at a failing `serial_recv` that nevertheless left a well-formed
response in the buffer. -/
theorem read_sig_bytes_recv_failure_witness :
    (alamode_read_sig_bytes stk500v1 (scripted 0 [0x14, 0x1E, 0x95, 0x0F, 0x10] (-1)) ()
        zeroStack (zeroMem 3)).ret = -1 ∧
      (alamode_read_sig_bytes stk500v1 (scripted 0 [0x14, 0x1E, 0x95, 0x0F, 0x10] (-1)) ()
        zeroStack (zeroMem 3)).err = [] ∧
      (alamode_read_sig_bytes stk500v1 (scripted 0 [0x14, 0x1E, 0x95, 0x0F, 0x10] (-1)) ()
        zeroStack (zeroMem 3)).m = zeroMem 3 :=
  read_sig_bytes_recv_failure stk500v1 (scripted 0 [0x14, 0x1E, 0x95, 0x0F, 0x10] (-1)) ()
    zeroStack (zeroMem 3) (by decide) (by decide)

/-- C4: when the received response `b0 .. b4` has `b0` different from the
in-sync sentinel, the call fails whatever `b1 .. b4` are: with -1 and the
out-of-sync message if `b0` is the out-of-sync sentinel, otherwise with -2 and
the protocol-error message carrying the in-sync sentinel as expected and `b0`
as received; the region is not written. -/
theorem read_sig_bytes_bad_sync {σ : Type} (k : StkConsts) (T : Serial σ) (fd : σ)
    (stack : Bytes) (m : AVRMEM) (b0 b1 b2 b3 b4 : Byte)
    (hsize : 3 ≤ m.size)
    (hrc : 0 ≤ (recvReply k T fd).2.2)
    (hdata : (recvReply k T fd).2.1 = [b0, b1, b2, b3, b4])
    (h0 : b0 ≠ k.Resp_STK_INSYNC) :
    (b0 = k.Resp_STK_NOSYNC →
        (alamode_read_sig_bytes k T fd stack m).ret = -1 ∧
        (alamode_read_sig_bytes k T fd stack m).err = [Diag.out_of_sync]) ∧
      (b0 ≠ k.Resp_STK_NOSYNC →
        (alamode_read_sig_bytes k T fd stack m).ret = -2 ∧
        (alamode_read_sig_bytes k T fd stack m).err =
          [Diag.protocol_error k.Resp_STK_INSYNC b0]) ∧
      (alamode_read_sig_bytes k T fd stack m).m = m := by
  obtain ⟨e0, -, -, -, -⟩ := rxBuf_five k T fd stack b0 b1 b2 b3 b4 hdata
  rw [read_sig_eq]
  by_cases hn : b0 = k.Resp_STK_NOSYNC
  · simp [not_lt.mpr hsize, not_lt.mpr hrc, e0, hn]
  · simp [not_lt.mpr hsize, not_lt.mpr hrc, e0, hn, h0]

/-- C4, at the response `[0x13, 0x1E, 0x95, 0x0F, 0x10]`, whose status byte is
the OK sentinel: the call returns -2 with expected `0x14`, received `0x13`. -/
theorem read_sig_bytes_bad_sync_witness :
    (alamode_read_sig_bytes stk500v1 (scripted 0 [0x13, 0x1E, 0x95, 0x0F, 0x10] 0) ()
        zeroStack (zeroMem 3)).ret = -2 ∧
      (alamode_read_sig_bytes stk500v1 (scripted 0 [0x13, 0x1E, 0x95, 0x0F, 0x10] 0) ()
        zeroStack (zeroMem 3)).err = [Diag.protocol_error 0x14 0x13] :=
  (read_sig_bytes_bad_sync stk500v1 (scripted 0 [0x13, 0x1E, 0x95, 0x0F, 0x10] 0) ()
    zeroStack (zeroMem 3) 0x13 0x1E 0x95 0x0F 0x10
    (by decide) (by decide) rfl (by decide)).2.1 (by decide)

/-- C5: when the received response `b0 .. b4` has `b0` the in-sync sentinel and
`b4` different from the OK sentinel, the call returns -3 with the
protocol-error message carrying the OK sentinel as expected and `b4` as
received, and the region is not written. -/
theorem read_sig_bytes_bad_status {σ : Type} (k : StkConsts) (T : Serial σ) (fd : σ)
    (stack : Bytes) (m : AVRMEM) (b0 b1 b2 b3 b4 : Byte)
    (hsize : 3 ≤ m.size)
    (hrc : 0 ≤ (recvReply k T fd).2.2)
    (hdata : (recvReply k T fd).2.1 = [b0, b1, b2, b3, b4])
    (h0 : b0 = k.Resp_STK_INSYNC) (h4 : b4 ≠ k.Resp_STK_OK)
    (hne : k.Resp_STK_INSYNC ≠ k.Resp_STK_NOSYNC) :
    (alamode_read_sig_bytes k T fd stack m).ret = -3 ∧
      (alamode_read_sig_bytes k T fd stack m).err =
        [Diag.protocol_error k.Resp_STK_OK b4] ∧
      (alamode_read_sig_bytes k T fd stack m).m = m := by
  obtain ⟨e0, -, -, -, e4⟩ := rxBuf_five k T fd stack b0 b1 b2 b3 b4 hdata
  rw [read_sig_eq]
  simp [not_lt.mpr hsize, not_lt.mpr hrc, e0, e4, h0, h4, hne]

/-- C5, at the response `[0x14, 0x1E, 0x95, 0x0F, 0x11]`: the call returns -3
with expected `0x10`, received `0x11`, and the region keeps its content. -/
theorem read_sig_bytes_bad_status_witness :
    (alamode_read_sig_bytes stk500v1 (scripted 0 [0x14, 0x1E, 0x95, 0x0F, 0x11] 0) ()
        zeroStack (zeroMem 3)).ret = -3 ∧
      (alamode_read_sig_bytes stk500v1 (scripted 0 [0x14, 0x1E, 0x95, 0x0F, 0x11] 0) ()
        zeroStack (zeroMem 3)).err = [Diag.protocol_error 0x10 0x11] ∧
      (alamode_read_sig_bytes stk500v1 (scripted 0 [0x14, 0x1E, 0x95, 0x0F, 0x11] 0) ()
        zeroStack (zeroMem 3)).m = zeroMem 3 :=
  read_sig_bytes_bad_status stk500v1 (scripted 0 [0x14, 0x1E, 0x95, 0x0F, 0x11] 0) ()
    zeroStack (zeroMem 3) 0x14 0x1E 0x95 0x0F 0x11
    (by decide) (by decide) rfl rfl (by decide) (by decide)

/-- The outcome for a received response whose first byte is `0x15`, by the
out-of-sync sentinel of the constant table: if that sentinel is `0x15` the
call returns -1 with the out-of-sync message; if it is not, and the in-sync
sentinel is `0x14`, the call returns -2 with the protocol-error message
carrying expected `0x14`, received `0x15`. -/
theorem first_byte_0x15_cases {σ : Type} (k : StkConsts) (T : Serial σ) (fd : σ)
    (stack : Bytes) (m : AVRMEM) (b1 b2 b3 b4 : Byte)
    (hsize : 3 ≤ m.size)
    (hrc : 0 ≤ (recvReply k T fd).2.2)
    (hdata : (recvReply k T fd).2.1 = [0x15, b1, b2, b3, b4]) :
    (k.Resp_STK_NOSYNC = 0x15 →
        (alamode_read_sig_bytes k T fd stack m).ret = -1 ∧
        (alamode_read_sig_bytes k T fd stack m).err = [Diag.out_of_sync]) ∧
      (k.Resp_STK_NOSYNC ≠ 0x15 → k.Resp_STK_INSYNC = 0x14 →
        (alamode_read_sig_bytes k T fd stack m).ret = -2 ∧
        (alamode_read_sig_bytes k T fd stack m).err = [Diag.protocol_error 0x14 0x15]) := by
  obtain ⟨e0, -, -, -, -⟩ := rxBuf_five k T fd stack 0x15 b1 b2 b3 b4 hdata
  rw [read_sig_eq]
  constructor
  · intro hn
    simp [not_lt.mpr hsize, not_lt.mpr hrc, e0, hn]
  · intro hn hi
    have hn2 : ¬ (21 : Byte) = k.Resp_STK_NOSYNC := fun h => hn h.symm
    simp [not_lt.mpr hsize, not_lt.mpr hrc, e0, hn2, hi]

theorem specSentinels_iff (k : StkConsts) :
    specSentinels k = true ↔
      k.Resp_STK_INSYNC = 0x14 ∧ k.Resp_STK_OK = 0x10 ∧ k.Resp_STK_NOSYNC ≠ 0x15 := by
  simp [specSentinels, and_assoc]

/-- C6: with the sentinel values the specification states (in-sync `0x14`,
`0x15` not the out-of-sync sentinel), a received response whose first byte is
`0x15` makes `alamode_read_sig_bytes` return -2 with the protocol-error message
carrying expected `0x14`, received `0x15`; this is not the out-of-sync result
(-1 with the out-of-sync message), and the region is not written. -/
theorem read_sig_bytes_first_byte_0x15 {σ : Type} (k : StkConsts) (T : Serial σ) (fd : σ)
    (stack : Bytes) (m : AVRMEM) (b1 b2 b3 b4 : Byte)
    (hspec : specSentinels k = true)
    (hsize : 3 ≤ m.size)
    (hrc : 0 ≤ (recvReply k T fd).2.2)
    (hdata : (recvReply k T fd).2.1 = [0x15, b1, b2, b3, b4]) :
    (alamode_read_sig_bytes k T fd stack m).ret = -2 ∧
      (alamode_read_sig_bytes k T fd stack m).err = [Diag.protocol_error 0x14 0x15] ∧
      (alamode_read_sig_bytes k T fd stack m).err ≠ [Diag.out_of_sync] ∧
      (alamode_read_sig_bytes k T fd stack m).m = m := by
  obtain ⟨hin, -, hno⟩ := (specSentinels_iff k).mp hspec
  obtain ⟨h1, h2⟩ := (first_byte_0x15_cases k T fd stack m b1 b2 b3 b4 hsize hrc hdata).2 hno hin
  refine ⟨h1, h2, ?_, ?_⟩
  · rw [h2]
    decide
  · obtain ⟨e0, -, -, -, -⟩ := rxBuf_five k T fd stack 0x15 b1 b2 b3 b4 hdata
    have hn2 : ¬ (21 : Byte) = k.Resp_STK_NOSYNC := fun h => hno h.symm
    rw [read_sig_eq]
    simp [not_lt.mpr hsize, not_lt.mpr hrc, e0, hn2, hin]

/-- C6, at the table with the specification's sentinel values and the response
`[0x15, 0x1E, 0x95, 0x0F, 0x10]`: the call returns -2 with expected `0x14`,
received `0x15`. -/
theorem read_sig_bytes_first_byte_0x15_witness :
    specSentinels specTable = true ∧
      (alamode_read_sig_bytes specTable (scripted 0 [0x15, 0x1E, 0x95, 0x0F, 0x10] 0) ()
        zeroStack (zeroMem 3)).ret = -2 ∧
      (alamode_read_sig_bytes specTable (scripted 0 [0x15, 0x1E, 0x95, 0x0F, 0x10] 0) ()
        zeroStack (zeroMem 3)).err = [Diag.protocol_error 0x14 0x15] :=
  have h := read_sig_bytes_first_byte_0x15 specTable
    (scripted 0 [0x15, 0x1E, 0x95, 0x0F, 0x10] 0) () zeroStack (zeroMem 3)
    0x1E 0x95 0x0F 0x10 (by decide) (by decide) (by decide) rfl
  ⟨by decide, h.1, h.2.1⟩

/-- C7, amended: with a region of size at least 3, `alamode_read_sig_bytes`
aborts at the receive step (returns -1 without a message) exactly when
`serial_recv` returns a negative value, and then the region is unmodified; a
non-negative return value, whatever count it stands for, is not a failure. -/
theorem read_sig_bytes_transport_error_iff {σ : Type} (k : StkConsts) (T : Serial σ)
    (fd : σ) (stack : Bytes) (m : AVRMEM) (hsize : 3 ≤ m.size) :
    (((alamode_read_sig_bytes k T fd stack m).ret = -1 ∧
        (alamode_read_sig_bytes k T fd stack m).err = []) ↔
        (recvReply k T fd).2.2 < 0) ∧
      ((recvReply k T fd).2.2 < 0 → (alamode_read_sig_bytes k T fd stack m).m = m) := by
  rw [read_sig_eq]
  simp only [not_lt.mpr hsize, if_false]
  by_cases hrc : (recvReply k T fd).2.2 < 0
  · simp [hrc]
  · simp only [hrc, if_false, iff_false, false_imp_iff, and_true]
    split_ifs <;> simp

/-- C7, amended, at a `serial_recv` that returns -1 after a short read of three
bytes. -/
theorem read_sig_bytes_transport_error_iff_witness :
    (alamode_read_sig_bytes stk500v1 (scripted 0 [0x14, 0x1E, 0x95] (-1)) ()
        staleStack (zeroMem 3)).ret = -1 ∧
      (alamode_read_sig_bytes stk500v1 (scripted 0 [0x14, 0x1E, 0x95] (-1)) ()
        staleStack (zeroMem 3)).err = [] :=
  (read_sig_bytes_transport_error_iff stk500v1 (scripted 0 [0x14, 0x1E, 0x95] (-1)) ()
    staleStack (zeroMem 3) (by decide)).1.mpr (by decide)

/-- C7 as stated fails: a `serial_recv` that stores only three bytes and
returns the count 3 is not treated as a failure. The two bytes it did not
deliver are read from the stale content of the local buffer, the call returns
3 and writes the region, the third signature byte being the stale `0x0F`. -/
theorem read_sig_bytes_short_read_accepted :
    (recvReply stk500v1 (scripted 0 [0x14, 0x1E, 0x95] 3) ()).2.1.length = 3 ∧
      (recvReply stk500v1 (scripted 0 [0x14, 0x1E, 0x95] 3) ()).2.2 = 3 ∧
      (alamode_read_sig_bytes stk500v1 (scripted 0 [0x14, 0x1E, 0x95] 3) ()
        staleStack (zeroMem 3)).ret = 3 ∧
      (alamode_read_sig_bytes stk500v1 (scripted 0 [0x14, 0x1E, 0x95] 3) ()
        staleStack (zeroMem 3)).m.buf 2 = 0x0F ∧
      (alamode_read_sig_bytes stk500v1 (scripted 0 [0x14, 0x1E, 0x95] 3) ()
        staleStack (zeroMem 3)).m ≠ zeroMem 3 := by
  refine ⟨rfl, rfl, ?_, ?_, ?_⟩
  · rw [read_sig_eq]; decide
  · rw [read_sig_eq]; decide
  · intro h
    have h2 := congrArg (fun x => x.buf 2) h
    revert h2
    rw [read_sig_eq]
    decide

/-- C8, amended: the return value of `serial_send` is not examined, so the
outcome of `alamode_read_sig_bytes` is the same whatever `serial_send`
returns; a failure reported by `serial_recv` (a negative return value) is
returned to the caller as -1 and never as success. -/
theorem read_sig_bytes_send_rc_unused {σ : Type} (k : StkConsts) (T : Serial σ) (fd : σ)
    (stack : Bytes) (m : AVRMEM) (rc : Int) :
    alamode_read_sig_bytes k (withSendRc T rc) fd stack m =
        alamode_read_sig_bytes k T fd stack m ∧
      (3 ≤ m.size → (recvReply k T fd).2.2 < 0 →
        (alamode_read_sig_bytes k T fd stack m).ret = -1) := by
  refine ⟨rfl, ?_⟩
  intro hsize hrc
  rw [read_sig_eq]
  simp [not_lt.mpr hsize, hrc]

/-- C8, amended, at a serial layer whose send succeeds and whose receive
fails: turning the send into a failure changes nothing, and the call
returns -1. -/
theorem read_sig_bytes_send_rc_unused_witness :
    alamode_read_sig_bytes stk500v1 (withSendRc (scripted 0 [] (-1)) (-1)) ()
        zeroStack (zeroMem 3) =
        alamode_read_sig_bytes stk500v1 (scripted 0 [] (-1)) () zeroStack (zeroMem 3) ∧
      (alamode_read_sig_bytes stk500v1 (scripted 0 [] (-1)) () zeroStack (zeroMem 3)).ret = -1 :=
  have h := read_sig_bytes_send_rc_unused stk500v1 (scripted 0 [] (-1)) () zeroStack
    (zeroMem 3) (-1)
  ⟨h.1, h.2 (by decide) (by decide)⟩

/-- C8 as stated fails: `serial_send` reports failure (-1) for the request
frame, `serial_recv` then delivers `[0x14, 0x1E, 0x95, 0x0F, 0x10]`, and
`alamode_read_sig_bytes` returns 3 with the signature written. -/
theorem read_sig_bytes_send_failure_ignored :
    (sendReply stk500v1 (scripted (-1) [0x14, 0x1E, 0x95, 0x0F, 0x10] 0) ()).2 = -1 ∧
      (alamode_read_sig_bytes stk500v1 (scripted (-1) [0x14, 0x1E, 0x95, 0x0F, 0x10] 0) ()
        zeroStack (zeroMem 3)).ret = 3 ∧
      (alamode_read_sig_bytes stk500v1 (scripted (-1) [0x14, 0x1E, 0x95, 0x0F, 0x10] 0) ()
        zeroStack (zeroMem 3)).m.buf 0 = 0x1E := by
  refine ⟨rfl, ?_, ?_⟩ <;> rw [read_sig_eq] <;> decide

/-- C9: with a region of size at least 3, whatever the serial layer does and
whatever the outcome, the calls recorded at the port are exactly one
`serial_send` of the two bytes `Cmnd_STK_READ_SIGN, Sync_CRC_EOP` followed by
one `serial_recv` of 5 bytes, and the serial layer is left in the state that
this one send followed by this one receive produce: no further call was
made. -/
theorem read_sig_bytes_wire_trace {σ : Type} (k : StkConsts) (T : Serial σ) (fd : σ)
    (stack : Bytes) (m : AVRMEM) (hsize : 3 ≤ m.size) :
    (alamode_read_sig_bytes k T fd stack m).wire =
        [WireEvent.send [k.Cmnd_STK_READ_SIGN, k.Sync_CRC_EOP], WireEvent.recv 5] ∧
      (alamode_read_sig_bytes k T fd stack m).fd =
        (T.serial_recv (T.serial_send fd [k.Cmnd_STK_READ_SIGN, k.Sync_CRC_EOP]).1 5).1 := by
  rw [read_sig_eq]
  simp only [not_lt.mpr hsize, if_false, recvReply]
  split_ifs <;> exact ⟨rfl, rfl⟩

/-- C9, at a serial layer that keeps the list of the calls it served and
whose `serial_recv` fails: the record at the port and the list kept by the
serial layer itself are both the one send of `[0x75, 0x20]` followed by the one
receive of 5 bytes. -/
theorem read_sig_bytes_wire_trace_witness :
    (alamode_read_sig_bytes stk500v1 recorder [] zeroStack (zeroMem 3)).wire =
        [WireEvent.send [0x75, 0x20], WireEvent.recv 5] ∧
      (alamode_read_sig_bytes stk500v1 recorder [] zeroStack (zeroMem 3)).fd =
        [WireEvent.send [0x75, 0x20], WireEvent.recv 5] :=
  read_sig_bytes_wire_trace stk500v1 recorder [] zeroStack (zeroMem 3) (by decide)

/-! ### Hardware revision: the architecture line -/

theorem scanRevision_keeps (s : Scan) (buf : List Char) :
    (scanRevision s buf).piModel = s.piModel ∧
      (scanRevision s buf).piPeriphBase = s.piPeriphBase ∧
      (scanRevision s buf).chars = s.chars := by
  unfold scanRevision
  split_ifs
  · split
    · split_ifs <;> simp
    · simp
    · simp
  · simp

theorem scanModel_set (s : Scan) (buf : List Char) (h : s.piModel ≠ 0) :
    scanModel s buf = s := by
  simp [scanModel, h]

theorem scanModel_skip (s : Scan) (buf : List Char) (h : decidesModel buf = false) :
    scanModel s buf = s := by
  unfold scanModel
  unfold decidesModel at h
  split_ifs with h0 hm h6 h7
  · rw [hm, h6] at h
    simp at h
  · rw [hm, h7] at h
    cases hx : strstr_found buf "ARMv6".toList <;> rw [hx] at h <;> exact absurd h (by decide)
  · rfl
  · rfl
  · rfl

theorem scanLine_set (s : Scan) (buf : List Char) (h : s.piModel ≠ 0) :
    (scanLine s buf).piModel = s.piModel ∧
      (scanLine s buf).piPeriphBase = s.piPeriphBase ∧
      (scanLine s buf).chars = s.chars := by
  unfold scanLine
  rw [scanModel_set s buf h]
  exact scanRevision_keeps s buf

theorem scanLines_set (bufs : List (List Char)) (s : Scan) (h : s.piModel ≠ 0) :
    (scanLines s bufs).piModel = s.piModel ∧
      (scanLines s bufs).piPeriphBase = s.piPeriphBase ∧
      (scanLines s bufs).chars = s.chars := by
  induction bufs generalizing s with
  | nil => simp [scanLines]
  | cons b bs ih =>
    obtain ⟨h1, h2, h3⟩ := scanLine_set s b h
    have h' : (scanLine s b).piModel ≠ 0 := by rw [h1]; exact h
    obtain ⟨i1, i2, i3⟩ := ih (scanLine s b) h'
    simp only [scanLines, List.foldl_cons] at i1 i2 i3 ⊢
    exact ⟨i1.trans h1, i2.trans h2, i3.trans h3⟩

theorem scanLines_skip (bufs : List (List Char)) (s : Scan)
    (h : ∀ b ∈ bufs, decidesModel b = false) :
    (scanLines s bufs).piModel = s.piModel ∧
      (scanLines s bufs).piPeriphBase = s.piPeriphBase ∧
      (scanLines s bufs).chars = s.chars := by
  induction bufs generalizing s with
  | nil => simp [scanLines]
  | cons b bs ih =>
    have hb : decidesModel b = false := h b (List.mem_cons_self b bs)
    have h1 : (scanLine s b).piModel = s.piModel ∧
        (scanLine s b).piPeriphBase = s.piPeriphBase ∧
        (scanLine s b).chars = s.chars := by
      unfold scanLine
      rw [scanModel_skip s b hb]
      exact scanRevision_keeps s b
    obtain ⟨i1, i2, i3⟩ := ih (scanLine s b) (fun c hc => h c (List.mem_cons_of_mem b hc))
    simp only [scanLines, List.foldl_cons] at i1 i2 i3 ⊢
    exact ⟨i1.trans h1.1, i2.trans h1.2.1, i3.trans h1.2.2⟩

theorem scanLines_append (s : Scan) (xs ys : List (List Char)) :
    scanLines s (xs ++ ys) = scanLines (scanLines s xs) ys := by
  simp [scanLines, List.foldl_append]

theorem take_getD_split (pre post : List (List Char)) (l : List Char) (i : Nat)
    (hi : pre.length ≤ i) :
    (i = pre.length ∧ (pre ++ l :: post).take i = pre ∧ (pre ++ l :: post).getD i [] = l) ∨
      (∃ j, (pre ++ l :: post).take i = pre ++ l :: post.take j) := by
  obtain ⟨j, rfl⟩ := Nat.exists_eq_add_of_le hi
  cases j with
  | zero =>
    left
    refine ⟨rfl, ?_, ?_⟩
    · simp
    · simp [List.getD_eq_getElem?_getD, List.getElem_append_right]
  | succ j =>
    right
    exact ⟨j, by rw [List.take_append]; simp⟩

theorem scan_after_hit (s0 : Scan) (pre post : List (List Char)) (l : List Char)
    (M B W : Nat) (hM : M ≠ 0) (h0 : s0.piModel = 0)
    (hpre : ∀ b ∈ pre, decidesModel b = false)
    (hhit : ∀ s : Scan, s.piModel = 0 → scanModel s l = ⟨s.rev, M, B, W⟩) :
    ((scanLines s0 (pre ++ l :: post)).piModel = M ∧
      (scanLines s0 (pre ++ l :: post)).piPeriphBase = B ∧
      (scanLines s0 (pre ++ l :: post)).chars = W) ∧
    ∀ i, pre.length ≤ i →
      (scanModel (scanLines s0 ((pre ++ l :: post).take i))
        ((pre ++ l :: post).getD i [])).chars = W := by
  obtain ⟨p1, -, -⟩ := scanLines_skip pre s0 hpre
  have hp : (scanLines s0 pre).piModel = 0 := p1.trans h0
  have hmod := hhit (scanLines s0 pre) hp
  obtain ⟨r1, r2, r3⟩ := scanRevision_keeps (scanModel (scanLines s0 pre) l) l
  rw [hmod] at r1 r2 r3
  simp only at r1 r2 r3
  have hline : ∀ rest : List (List Char),
      (scanLines s0 (pre ++ l :: rest)).piModel = M ∧
      (scanLines s0 (pre ++ l :: rest)).piPeriphBase = B ∧
      (scanLines s0 (pre ++ l :: rest)).chars = W := by
    intro rest
    have e : scanLines s0 (pre ++ l :: rest) = scanLines (scanLine (scanLines s0 pre) l) rest := by
      rw [scanLines_append]; rfl
    have hne : (scanLine (scanLines s0 pre) l).piModel ≠ 0 := by
      unfold scanLine; rw [hmod, r1]; exact hM
    obtain ⟨q1, q2, q3⟩ := scanLines_set rest (scanLine (scanLines s0 pre) l) hne
    rw [e]
    unfold scanLine at q1 q2 q3 ⊢
    rw [hmod] at q1 q2 q3 ⊢
    exact ⟨q1.trans r1, q2.trans r2, q3.trans r3⟩
  refine ⟨hline post, ?_⟩
  intro i hi
  rcases take_getD_split pre post l i hi with ⟨-, e1, e2⟩ | ⟨j, e1⟩
  · rw [e1, e2, hmod]
  · rw [e1, scanModel_set _ _ (by rw [(hline (post.take j)).1]; exact hM)]
    exact (hline (post.take j)).2.2

theorem scanModel_hit6 (l : List Char)
    (hl : strncasecmp_eq "model name".toList l 10 = true)
    (h6 : strstr_found l "ARMv6".toList = true) (s : Scan) (h0 : s.piModel = 0) :
    scanModel s l = ⟨s.rev, 1, 0x20000000, 4⟩ := by
  unfold scanModel
  rw [if_pos h0, if_pos hl, if_pos h6]

theorem scanModel_hit7 (l : List Char)
    (hl : strncasecmp_eq "model name".toList l 10 = true)
    (h6 : strstr_found l "ARMv6".toList = false)
    (h7 : strstr_found l "ARMv7".toList = true) (s : Scan) (h0 : s.piModel = 0) :
    scanModel s l = ⟨s.rev, 2, 0x3F000000, 6⟩ := by
  unfold scanModel
  rw [if_pos h0, if_pos hl, if_neg (by rw [h6]; decide), if_pos h7]

/-! ### Hardware revision: reading the file -/

theorem fgetsTake_append (n : Nat) (s : List Char) :
    (fgetsTake n s).1 ++ (fgetsTake n s).2 = s := by
  induction n generalizing s with
  | zero => simp [fgetsTake]
  | succ n ih =>
    cases s with
    | nil => simp [fgetsTake]
    | cons c t =>
      unfold fgetsTake
      split_ifs
      · simp
      · simp [ih t]

theorem fgetsTake_rest_lt (n : Nat) (s : List Char) (hn : 0 < n) (hs : s ≠ []) :
    (fgetsTake n s).2.length < s.length := by
  cases n with
  | zero => exact absurd hn (by decide)
  | succ n =>
    cases s with
    | nil => exact absurd rfl hs
    | cons c t =>
      have hle : (fgetsTake n t).2.length ≤ t.length := by
        have h := congrArg List.length (fgetsTake_append n t)
        rw [List.length_append] at h
        omega
      unfold fgetsTake
      split_ifs
      · simp
      · simp only [List.length_cons]
        omega

theorem readLines_join (fuel : Nat) (s : List Char) (h : s.length ≤ fuel) :
    (readLines fuel s).flatten = s := by
  induction fuel generalizing s with
  | zero =>
    have hs : s = [] := List.length_eq_zero.mp (Nat.le_zero.mp h)
    simp [readLines, hs]
  | succ fuel ih =>
    by_cases hs : s = []
    · simp [readLines, fgets, hs]
    · have hlt := fgetsTake_rest_lt 511 s (by decide) hs
      have hrec := ih (fgetsTake 511 s).2 (by omega)
      simp only [readLines, fgets, hs, if_false, List.flatten_cons, hrec]
      exact fgetsTake_append 511 s

/-- The buffers read make up the whole file: the loop reaches the end of the
file within the calls `fileLines` allows. -/
theorem fileLines_join (content : List Char) : (fileLines content).flatten = content :=
  readLines_join content.length content (Nat.le_refl _)

/-! ### Hardware revision: the claims -/

/-- On a call without cached revision the first buffer read that starts with
`model name` and holds a marker decides. If it holds `ARMv6`, `piPeriphBase`
is `0x20000000`, `piModel` is 1 and the revision parse of that turn and of
every later turn uses width 4; if it holds `ARMv7` and not `ARMv6`,
`piPeriphBase` is `0x3F000000`, `piModel` is 2 and the width is 6. -/
theorem gpioHardwareRevision_first_model_line (g : PiState) (content : List Char)
    (pre post : List (List Char)) (l : List Char)
    (hrev : g.rev = 0)
    (hlines : fileLines content = pre ++ l :: post)
    (hpre : ∀ b ∈ pre, decidesModel b = false)
    (hl : strncasecmp_eq "model name".toList l 10 = true) :
    (strstr_found l "ARMv6".toList = true →
        (gpioHardwareRevision (some content) g).2.piPeriphBase = 0x20000000 ∧
        (gpioHardwareRevision (some content) g).2.piModel = 1 ∧
        (scanFile (some content) g).chars = 4 ∧
        ∀ i, pre.length ≤ i → revWidth content g i = 4) ∧
      (strstr_found l "ARMv6".toList = false → strstr_found l "ARMv7".toList = true →
        (gpioHardwareRevision (some content) g).2.piPeriphBase = 0x3F000000 ∧
        (gpioHardwareRevision (some content) g).2.piModel = 2 ∧
        (scanFile (some content) g).chars = 6 ∧
        ∀ i, pre.length ≤ i → revWidth content g i = 6) := by
  have hg : ¬ g.rev ≠ 0 := fun h => h hrev
  constructor
  · intro h6
    obtain ⟨⟨a1, a2, a3⟩, a4⟩ := scan_after_hit ⟨g.rev, 0, g.piPeriphBase, 4⟩ pre post l
      1 0x20000000 4 (by decide) rfl hpre (scanModel_hit6 l hl h6)
    simp only [gpioHardwareRevision, hg, if_false, scanFile, revWidth, hlines]
    exact ⟨a2, a1, a3, a4⟩
  · intro h6 h7
    obtain ⟨⟨a1, a2, a3⟩, a4⟩ := scan_after_hit ⟨g.rev, 0, g.piPeriphBase, 4⟩ pre post l
      2 0x3F000000 6 (by decide) rfl hpre (scanModel_hit7 l hl h6 h7)
    simp only [gpioHardwareRevision, hg, if_false, scanFile, revWidth, hlines]
    exact ⟨a2, a1, a3, a4⟩

theorem exists_first_deciding (bufs : List (List Char))
    (h : ∃ b ∈ bufs, decidesModel b = true) :
    ∃ pre l post, bufs = pre ++ l :: post ∧ (∀ b ∈ pre, decidesModel b = false) ∧
      decidesModel l = true := by
  induction bufs with
  | nil =>
    obtain ⟨b, hb, -⟩ := h
    exact absurd hb (List.not_mem_nil b)
  | cons x xs ih =>
    by_cases hx : decidesModel x = true
    · exact ⟨[], x, xs, rfl, fun b hb => absurd hb (List.not_mem_nil b), hx⟩
    · have hx2 : decidesModel x = false := by simpa using hx
      obtain ⟨b, hb, hdb⟩ := h
      have hb2 : b ∈ xs := by
        rcases List.mem_cons.mp hb with e | e
        · rw [e] at hdb
          exact absurd hdb hx
        · exact e
      obtain ⟨pre, l, post, e, hpre, hl⟩ := ih ⟨b, hb2, hdb⟩
      refine ⟨x :: pre, l, post, by rw [e]; rfl, ?_, hl⟩
      intro c hc
      rcases List.mem_cons.mp hc with e2 | e2
      · rw [e2]; exact hx2
      · exact hpre c e2

theorem decidesModel_parts (b : List Char) (h : decidesModel b = true) :
    strncasecmp_eq "model name".toList b 10 = true ∧
      (strstr_found b "ARMv6".toList = true ∨ strstr_found b "ARMv7".toList = true) := by
  unfold decidesModel at h
  rw [Bool.and_eq_true, Bool.or_eq_true] at h
  exact h

theorem decidesModel_of (b : List Char) (marker : List Char)
    (hmk : marker = "ARMv6".toList ∨ marker = "ARMv7".toList)
    (hm : strncasecmp_eq "model name".toList b 10 = true)
    (hk : strstr_found b marker = true) : decidesModel b = true := by
  unfold decidesModel
  rw [Bool.and_eq_true, Bool.or_eq_true]
  rcases hmk with e | e
  · rw [e] at hk
    exact ⟨hm, Or.inl hk⟩
  · rw [e] at hk
    exact ⟨hm, Or.inr hk⟩

theorem scanModel_chars4 (s : Scan) (b : List Char) (hs : s.chars = 4)
    (hb : strncasecmp_eq "model name".toList b 10 = true →
      strstr_found b "ARMv7".toList = false) :
    (scanModel s b).chars = 4 := by
  unfold scanModel
  split_ifs with h0 hm h6 h7
  · rfl
  · rw [hb hm] at h7
    exact absurd h7 (by decide)
  · exact hs
  · exact hs
  · exact hs

theorem scanLines_chars4 (bufs : List (List Char)) (s : Scan) (hs : s.chars = 4)
    (hb : ∀ b ∈ bufs, strncasecmp_eq "model name".toList b 10 = true →
      strstr_found b "ARMv7".toList = false) :
    (scanLines s bufs).chars = 4 := by
  induction bufs generalizing s with
  | nil => exact hs
  | cons x xs ih =>
    simp only [scanLines, List.foldl_cons]
    apply ih
    · unfold scanLine
      rw [(scanRevision_keeps (scanModel s x) x).2.2]
      exact scanModel_chars4 s x hs (hb x (List.mem_cons_self x xs))
    · exact fun c hc => hb c (List.mem_cons_of_mem x hc)

theorem revWidth_legacy (content : List Char) (g : PiState)
    (hb : ∀ b ∈ fileLines content, strncasecmp_eq "model name".toList b 10 = true →
      strstr_found b "ARMv7".toList = false) (i : Nat) :
    revWidth content g i = 4 := by
  unfold revWidth
  apply scanModel_chars4
  · exact scanLines_chars4 _ _ rfl (fun b hbm => hb b (List.mem_of_mem_take hbm))
  · rw [List.getD_eq_getElem?_getD]
    by_cases hi : i < (fileLines content).length
    · rw [List.getElem?_eq_getElem hi, Option.getD_some]
      exact hb _ (List.getElem_mem hi)
    · rw [List.getElem?_eq_none (Nat.le_of_not_lt hi), Option.getD_none]
      intro h
      exact absurd h (by decide)

/-- C10: on a first call (no cached revision) reading a platform description
that names one architecture, the lines being the buffers `fgets` delivers. If
a line starting with `model name` holds `ARMv6` and no such line holds `ARMv7`,
then `piPeriphBase` is `0x20000000`, `piModel` is 1 and every revision parse
uses width 4. If a line starting with `model name` holds `ARMv7` and no such
line holds `ARMv6`, then `piPeriphBase` is `0x3F000000`, `piModel` is 2, `chars`
ends as 6, and from the first architecture line on every revision parse uses
width 6. -/
theorem gpioHardwareRevision_architecture (g : PiState) (content : List Char)
    (hrev : g.rev = 0) :
    ((∃ b ∈ fileLines content, strncasecmp_eq "model name".toList b 10 = true ∧
          strstr_found b "ARMv6".toList = true) →
        (∀ b ∈ fileLines content, strncasecmp_eq "model name".toList b 10 = true →
          strstr_found b "ARMv7".toList = false) →
        (gpioHardwareRevision (some content) g).2.piPeriphBase = 0x20000000 ∧
        (gpioHardwareRevision (some content) g).2.piModel = 1 ∧
        (scanFile (some content) g).chars = 4 ∧
        ∀ i, revWidth content g i = 4) ∧
      ((∃ b ∈ fileLines content, strncasecmp_eq "model name".toList b 10 = true ∧
          strstr_found b "ARMv7".toList = true) →
        (∀ b ∈ fileLines content, strncasecmp_eq "model name".toList b 10 = true →
          strstr_found b "ARMv6".toList = false) →
        (gpioHardwareRevision (some content) g).2.piPeriphBase = 0x3F000000 ∧
        (gpioHardwareRevision (some content) g).2.piModel = 2 ∧
        (scanFile (some content) g).chars = 6 ∧
        ∃ pre l post, fileLines content = pre ++ l :: post ∧
          (∀ b ∈ pre, decidesModel b = false) ∧
          strncasecmp_eq "model name".toList l 10 = true ∧
          strstr_found l "ARMv7".toList = true ∧
          ∀ i, pre.length ≤ i → revWidth content g i = 6) := by
  constructor
  · intro hex hno7
    obtain ⟨b, hb, hbm, hb6⟩ := hex
    obtain ⟨pre, l, post, e, hpre, hl⟩ := exists_first_deciding (fileLines content)
      ⟨b, hb, decidesModel_of b _ (Or.inl rfl) hbm hb6⟩
    obtain ⟨hlm, hlk⟩ := decidesModel_parts l hl
    have hlmem : l ∈ fileLines content := by rw [e]; simp
    have h6 : strstr_found l "ARMv6".toList = true := by
      rcases hlk with h | h
      · exact h
      · rw [hno7 l hlmem hlm] at h
        exact absurd h (by decide)
    obtain ⟨a1, a2, a3, -⟩ :=
      (gpioHardwareRevision_first_model_line g content pre post l hrev e hpre hlm).1 h6
    exact ⟨a1, a2, a3, revWidth_legacy content g hno7⟩
  · intro hex hno6
    obtain ⟨b, hb, hbm, hb7⟩ := hex
    obtain ⟨pre, l, post, e, hpre, hl⟩ := exists_first_deciding (fileLines content)
      ⟨b, hb, decidesModel_of b _ (Or.inr rfl) hbm hb7⟩
    obtain ⟨hlm, hlk⟩ := decidesModel_parts l hl
    have hlmem : l ∈ fileLines content := by rw [e]; simp
    have h6 : strstr_found l "ARMv6".toList = false := hno6 l hlmem hlm
    have h7 : strstr_found l "ARMv7".toList = true := by
      rcases hlk with h | h
      · rw [h6] at h
        exact absurd h (by decide)
      · exact h
    obtain ⟨a1, a2, a3, a4⟩ :=
      (gpioHardwareRevision_first_model_line g content pre post l hrev e hpre hlm).2 h6 h7
    exact ⟨a1, a2, a3, pre, l, post, e, hpre, hlm, h7, a4⟩

/-- C10, at the platform descriptions of a board of the legacy family and of a
board of the later family: base `0x20000000`, model 1, width 4 for the first;
base `0x3F000000`, model 2, width 6 for the second. -/
theorem gpioHardwareRevision_architecture_witness :
    ((gpioHardwareRevision (some pi1Cpuinfo) PiState.start).2.piPeriphBase = 0x20000000 ∧
        (gpioHardwareRevision (some pi1Cpuinfo) PiState.start).2.piModel = 1 ∧
        (scanFile (some pi1Cpuinfo) PiState.start).chars = 4) ∧
      ((gpioHardwareRevision (some pi2Cpuinfo) PiState.start).2.piPeriphBase = 0x3F000000 ∧
        (gpioHardwareRevision (some pi2Cpuinfo) PiState.start).2.piModel = 2 ∧
        (scanFile (some pi2Cpuinfo) PiState.start).chars = 6) :=
  have h1 := (gpioHardwareRevision_architecture PiState.start pi1Cpuinfo rfl).1
    (by decide) (by decide)
  have h2 := (gpioHardwareRevision_architecture PiState.start pi2Cpuinfo rfl).2
    (by decide) (by decide)
  ⟨⟨h1.1, h1.2.1, h1.2.2.1⟩, ⟨h2.1, h2.2.1, h2.2.2.1⟩⟩

/-! ### Signature read: frame -/

/-- C19: whatever the region, the serial layer and the response,
`alamode_read_sig_bytes` returns 3, -1, -2 or -3; every return value other
than 3 leaves the region exactly as it was; and a return of 3 changes nothing
but `m->buf[0..2]`: the size field and every byte at index 3 or above are
kept. -/
theorem read_sig_bytes_frame {σ : Type} (k : StkConsts) (T : Serial σ) (fd : σ)
    (stack : Bytes) (m : AVRMEM) :
    ((alamode_read_sig_bytes k T fd stack m).ret = 3 ∨
        (alamode_read_sig_bytes k T fd stack m).ret = -1 ∨
        (alamode_read_sig_bytes k T fd stack m).ret = -2 ∨
        (alamode_read_sig_bytes k T fd stack m).ret = -3) ∧
      ((alamode_read_sig_bytes k T fd stack m).ret ≠ 3 →
        (alamode_read_sig_bytes k T fd stack m).m = m) ∧
      (alamode_read_sig_bytes k T fd stack m).m.size = m.size ∧
      (∀ i, 3 ≤ i → (alamode_read_sig_bytes k T fd stack m).m.buf i = m.buf i) := by
  rw [read_sig_eq]
  have hp : ∀ (a b c : Byte) (i : Nat), 3 ≤ i →
      poke (poke (poke m.buf 0 a) 1 b) 2 c i = m.buf i := by
    intro a b c i hi
    have h0 : i ≠ 0 := by omega
    have h1 : i ≠ 1 := by omega
    have h2 : i ≠ 2 := by omega
    simp [poke, h0, h1, h2]
  by_cases h1 : m.size < 3
  · simp [h1]
  by_cases h2 : (recvReply k T fd).2.2 < 0
  · simp [h1, h2]
  by_cases h3 : rxBuf k T fd stack 0 = k.Resp_STK_NOSYNC
  · simp [h1, h2, h3]
  by_cases h4 : rxBuf k T fd stack 0 = k.Resp_STK_INSYNC
  · by_cases h5 : rxBuf k T fd stack 4 = k.Resp_STK_OK
    · have h3b : ¬ k.Resp_STK_INSYNC = k.Resp_STK_NOSYNC := h4 ▸ h3
      simp only [h1, h2, h3b, h4, h5, if_false, if_true, ne_eq, not_true_eq_false]
      exact ⟨by simp, by simp, by simp, fun i hi => hp _ _ _ i hi⟩
    · have h3b : ¬ k.Resp_STK_INSYNC = k.Resp_STK_NOSYNC := h4 ▸ h3
      simp [h1, h2, h3b, h4, h5]
  · simp [h1, h2, h3, h4]

/-- C19, at a protocol error on a region of five bytes: the call returns -2
and the region is what it was. -/
theorem read_sig_bytes_frame_witness :
    (alamode_read_sig_bytes stk500v1 (scripted 0 [0x13, 0x1E, 0x95, 0x0F, 0x10] 0) ()
        zeroStack (zeroMem 5)).ret ≠ 3 ∧
      (alamode_read_sig_bytes stk500v1 (scripted 0 [0x13, 0x1E, 0x95, 0x0F, 0x10] 0) ()
        zeroStack (zeroMem 5)).m = zeroMem 5 :=
  have h : (alamode_read_sig_bytes stk500v1 (scripted 0 [0x13, 0x1E, 0x95, 0x0F, 0x10] 0) ()
      zeroStack (zeroMem 5)).ret ≠ 3 := by rw [read_sig_eq]; decide
  ⟨h, (read_sig_bytes_frame stk500v1 (scripted 0 [0x13, 0x1E, 0x95, 0x0F, 0x10] 0) ()
    zeroStack (zeroMem 5)).2.1 h⟩

/-! ### Hardware revision: cache, missing lines, parse offset -/

theorem scanRevision_skip (s : Scan) (buf : List Char)
    (h : strncasecmp_eq "revision".toList buf 8 = false) : scanRevision s buf = s := by
  unfold scanRevision
  rw [if_neg (by rw [h]; decide)]

theorem scanModel_rev (s : Scan) (buf : List Char) : (scanModel s buf).rev = s.rev := by
  unfold scanModel
  split_ifs <;> rfl

theorem scanLines_idle (bufs : List (List Char)) (s : Scan)
    (h : ∀ b ∈ bufs, decidesModel b = false ∧ strncasecmp_eq "revision".toList b 8 = false) :
    scanLines s bufs = s := by
  induction bufs generalizing s with
  | nil => rfl
  | cons b bs ih =>
    have hb := h b (List.mem_cons_self b bs)
    have h1 : scanLine s b = s := by
      unfold scanLine
      rw [scanModel_skip s b hb.1, scanRevision_skip s b hb.2]
    simp only [scanLines, List.foldl_cons, h1]
    exact ih s (fun c hc => h c (List.mem_cons_of_mem b hc))

theorem scanLines_no_revision (bufs : List (List Char)) (s : Scan)
    (h : ∀ b ∈ bufs, strncasecmp_eq "revision".toList b 8 = false) :
    (scanLines s bufs).rev = s.rev := by
  induction bufs generalizing s with
  | nil => rfl
  | cons b bs ih =>
    have hb := h b (List.mem_cons_self b bs)
    have h1 : (scanLine s b).rev = s.rev := by
      unfold scanLine
      rw [scanRevision_skip _ b hb, scanModel_rev]
    simp only [scanLines, List.foldl_cons]
    exact (ih (scanLine s b) (fun c hc => h c (List.mem_cons_of_mem b hc))).trans h1

theorem scanModel_chars (s : Scan) (buf : List Char) (h : s.chars = 4 ∨ s.chars = 6) :
    (scanModel s buf).chars = 4 ∨ (scanModel s buf).chars = 6 := by
  unfold scanModel
  split_ifs
  · exact Or.inl rfl
  · exact Or.inr rfl
  · exact h
  · exact h
  · exact h

theorem scanLines_chars (bufs : List (List Char)) (s : Scan)
    (h : s.chars = 4 ∨ s.chars = 6) :
    (scanLines s bufs).chars = 4 ∨ (scanLines s bufs).chars = 6 := by
  induction bufs generalizing s with
  | nil => exact h
  | cons b bs ih =>
    simp only [scanLines, List.foldl_cons]
    apply ih
    unfold scanLine
    rw [(scanRevision_keeps (scanModel s b) b).2.2]
    exact scanModel_chars s b h

theorem revision_prefix_length (buf : List Char)
    (h : strncasecmp_eq "revision".toList buf 8 = true) : 8 ≤ (cstr buf).length := by
  unfold strncasecmp_eq at h
  have h2 := congrArg List.length (beq_iff_eq.mp h)
  simp only [List.length_map, List.length_take] at h2
  have h3 : "revision".toList.length = 8 := by decide
  rw [h3] at h2
  omega

/-- C13: once a call of `gpioHardwareRevision` has returned a non-zero
revision `r`, any later call returns `r` whatever the source now holds (also
when it cannot be opened) and leaves `rev`, `piModel` and `piPeriphBase` as
that call left them; this holds after any number of later calls. -/
theorem gpioHardwareRevision_cached (f1 : Option (List Char)) (g : PiState)
    (h : (gpioHardwareRevision f1 g).1 ≠ 0) :
    (∀ f2, gpioHardwareRevision f2 (gpioHardwareRevision f1 g).2 =
        ((gpioHardwareRevision f1 g).1, (gpioHardwareRevision f1 g).2)) ∧
      (∀ fs : List (Option (List Char)),
        fs.foldl (fun st f => (gpioHardwareRevision f st).2) (gpioHardwareRevision f1 g).2 =
          (gpioHardwareRevision f1 g).2) := by
  have hrev : (gpioHardwareRevision f1 g).2.rev = (gpioHardwareRevision f1 g).1 := by
    unfold gpioHardwareRevision
    split_ifs <;> rfl
  have hne : (gpioHardwareRevision f1 g).2.rev ≠ 0 := by rw [hrev]; exact h
  have hone : ∀ f2, gpioHardwareRevision f2 (gpioHardwareRevision f1 g).2 =
      ((gpioHardwareRevision f1 g).1, (gpioHardwareRevision f1 g).2) := by
    intro f2
    generalize gpioHardwareRevision f1 g = r at hrev hne
    unfold gpioHardwareRevision
    rw [if_pos hne, hrev]
  refine ⟨hone, ?_⟩
  intro fs
  induction fs with
  | nil => rfl
  | cons f fs ih =>
    simp only [List.foldl_cons, hone f]
    exact ih

/-- C13, at a first call reading the description of a board of the later
family and a second call reading the mixed description: both return
`0xa01041`, and the globals stay as the first call left them. -/
theorem gpioHardwareRevision_cached_witness :
    (gpioHardwareRevision (some pi2Cpuinfo) PiState.start).1 = 0xa01041 ∧
      gpioHardwareRevision (some mixedCpuinfo)
          (gpioHardwareRevision (some pi2Cpuinfo) PiState.start).2 =
        (0xa01041, ⟨0xa01041, 2, 0x3F000000⟩) :=
  have h1 : (gpioHardwareRevision (some pi2Cpuinfo) PiState.start).1 = 0xa01041 := by decide
  have h2 : (gpioHardwareRevision (some pi2Cpuinfo) PiState.start).2 =
      ⟨0xa01041, 2, 0x3F000000⟩ := by decide
  ⟨h1, by
    rw [(gpioHardwareRevision_cached (some pi2Cpuinfo) PiState.start
      (by rw [h1]; decide)).1 (some mixedCpuinfo), h1, h2]⟩

/-- C14, amended: on a call without cached revision, when the source cannot be
opened or no buffer read from it is an architecture line with a marker or
starts with `revision`, `gpioHardwareRevision` returns 0, `piPeriphBase` is
left as it was and `piModel` is left at 0, the value the call gave it before
reading. -/
theorem gpioHardwareRevision_no_matching_lines (file : Option (List Char)) (g : PiState)
    (hrev : g.rev = 0)
    (hfile : ∀ content, file = some content → ∀ b ∈ fileLines content,
      decidesModel b = false ∧ strncasecmp_eq "revision".toList b 8 = false) :
    gpioHardwareRevision file g = (0, ⟨0, 0, g.piPeriphBase⟩) := by
  have hg : ¬ g.rev ≠ 0 := fun h => h hrev
  unfold gpioHardwareRevision
  rw [if_neg hg]
  cases file with
  | none => simp [scanFile, hrev]
  | some content =>
    simp only [scanFile, scanLines_idle (fileLines content) _ (hfile content rfl), hrev]

/-- C14, amended, at a source that cannot be opened, from the initial values
of the globals: the call returns 0 and leaves `piModel` 0, `piPeriphBase`
`0x20000000`. -/
theorem gpioHardwareRevision_no_matching_lines_witness :
    gpioHardwareRevision none PiState.start = (0, ⟨0, 0, 0x20000000⟩) :=
  gpioHardwareRevision_no_matching_lines none PiState.start rfl
    (fun _ h => Option.noConfusion h)

/-- C14 as stated fails: from the initial values of the globals, with a source
that cannot be opened, and with a source holding neither an architecture line
nor a revision line, the call leaves `piModel` at 0, not at 1. -/
theorem gpioHardwareRevision_model_left_unknown :
    PiState.start.piModel = 1 ∧
      (gpioHardwareRevision none PiState.start).2.piModel = 0 ∧
      (gpioHardwareRevision (some "processor\t: 0\n".toList) PiState.start).2.piModel = 0 ∧
      (gpioHardwareRevision none PiState.start).2.piModel ≠ 1 := by
  decide

/-- C20: for every file content and every turn of the loop, `chars` is 4 or 6
when `sscanf` is reached, and a buffer that passes the `revision` prefix test
holds a string of at least 8 characters, so `chars + 1` never exceeds
`strlen(buf)` and the start offset `strlen(buf) - (chars + 1)` is not
negative. -/
theorem revision_parse_offset (content : List Char) (g : PiState) (i : Nat) :
    (revWidth content g i = 4 ∨ revWidth content g i = 6) ∧
      (strncasecmp_eq "revision".toList ((fileLines content).getD i []) 8 = true →
        8 ≤ (cstr ((fileLines content).getD i [])).length ∧
        revWidth content g i + 1 ≤ 8 ∧
        revWidth content g i + 1 ≤ (cstr ((fileLines content).getD i [])).length) := by
  have hw : revWidth content g i = 4 ∨ revWidth content g i = 6 := by
    unfold revWidth
    exact scanModel_chars _ _ (scanLines_chars _ _ (Or.inl rfl))
  refine ⟨hw, ?_⟩
  intro hp
  have hl := revision_prefix_length _ hp
  rcases hw with h | h <;> (rw [h]; omega)

/-- C20, at the revision line of a board of the later family (fourth buffer):
the width is 6 and the string has 18 characters. -/
theorem revision_parse_offset_witness :
    revWidth pi2Cpuinfo PiState.start 3 + 1 ≤
      (cstr ((fileLines pi2Cpuinfo).getD 3 [])).length :=
  ((revision_parse_offset pi2Cpuinfo PiState.start 3).2 (by decide)).2.2

/-! ### GPIO reset and register mapping -/

theorem mask16_eq : not32 (7 <<< ((16 % 10) * 3)) = 0xFFE3FFFF := by decide

theorem bit16_eq : (1 : Nat) <<< ((16 % 10) * 3) = 2 ^ 18 := by decide

theorem mask16_bit (i : Nat) :
    Nat.testBit 0xFFE3FFFF i = (decide (i < 32) && !(decide (i = 18) || decide (i = 19) || decide (i = 20))) := by
  by_cases h : i < 32
  · interval_cases i <;> decide
  · have h2 : (0xFFE3FFFF : Nat) < 2 ^ i :=
      Nat.lt_of_lt_of_le (by decide : (0xFFE3FFFF : Nat) < 2 ^ 32)
        (Nat.pow_le_pow_right (by decide) (Nat.le_of_not_lt h))
    rw [Nat.testBit_lt_two_pow h2]
    simp [h]

theorem fsel16_bit (w i : Nat) (hw : w < 2 ^ 32) :
    Nat.testBit ((w &&& 0xFFE3FFFF) ||| 2 ^ 18) i =
      if i = 18 then true else if i = 19 ∨ i = 20 then false else Nat.testBit w i := by
  rw [Nat.testBit_or, Nat.testBit_and, mask16_bit, Nat.testBit_two_pow]
  by_cases h18 : i = 18
  · simp [h18]
  by_cases h19 : i = 19
  · simp [h19]
  by_cases h20 : i = 20
  · simp [h20]
  have h18b : ¬ 18 = i := fun h => h18 h.symm
  by_cases h : i < 32
  · simp [h18, h19, h20, h18b, h]
  · have h2 : w < 2 ^ i :=
      Nat.lt_of_lt_of_le hw (Nat.pow_le_pow_right (by decide) (Nat.le_of_not_lt h))
    simp [h18, h19, h20, h18b, h, Nat.testBit_lt_two_pow h2]

theorem fsel16_lt (w : Nat) : (w &&& 0xFFE3FFFF) ||| 2 ^ 18 < 2 ^ 32 :=
  Nat.or_lt_two_pow (Nat.lt_of_le_of_lt Nat.and_le_right (by decide)) (by decide)

theorem and_mask16_lt (w : Nat) : w &&& 0xFFE3FFFF < 2 ^ 32 :=
  Nat.lt_of_le_of_lt Nat.and_le_right (by decide)

theorem fsel16_field (w : Nat) (hw : w < 2 ^ 32) :
    (((w &&& 0xFFE3FFFF) ||| 2 ^ 18) >>> 18) &&& 7 = 1 := by
  apply Nat.eq_of_testBit_eq
  intro i
  rw [Nat.testBit_and, Nat.testBit_shiftRight, fsel16_bit w (18 + i) hw]
  rcases i with _ | _ | _ | i
  · simp
  · simp
    decide
  · simp
    decide
  · have h7 : (7 : Nat) < 2 ^ (i + 3) :=
      Nat.lt_of_lt_of_le (by decide : (7 : Nat) < 2 ^ 3) (Nat.pow_le_pow_right (by decide) (by omega))
    have h1 : (1 : Nat) < 2 ^ (i + 3) :=
      Nat.lt_of_lt_of_le (by decide : (1 : Nat) < 2 ^ 3) (Nat.pow_le_pow_right (by decide) (by omega))
    have e : i + 1 + 1 + 1 = i + 3 := by omega
    rw [e, Nat.testBit_lt_two_pow h7, Nat.testBit_lt_two_pow h1, Bool.and_false]

theorem configure16_eq (r : RegBlock) :
    OUT_GPIO ( INP_GPIO r 16) 16 =
      ⟨fun j => if j = 1 then (r.mem 1 % 2 ^ 32 &&& 0xFFE3FFFF) ||| 2 ^ 18 else r.mem j,
        r.log ++ [GpioEvent.write 1 (r.mem 1 % 2 ^ 32 &&& 0xFFE3FFFF),
          GpioEvent.write 1 ((r.mem 1 % 2 ^ 32 &&& 0xFFE3FFFF) ||| 2 ^ 18)]⟩ := by
  have d : 16 / 10 = 1 := by decide
  have m1 := Nat.mod_eq_of_lt (and_mask16_lt (r.mem 1 % 2 ^ 32))
  have m2 := Nat.mod_eq_of_lt (fsel16_lt (r.mem 1 % 2 ^ 32))
  unfold OUT_GPIO INP_GPIO reg_write reg_read
  simp only [d, mask16_eq, bit16_eq, if_true, m1, m2, List.append_assoc, List.cons_append,
    List.nil_append]
  congr 1
  funext j
  by_cases hj : j = 1 <;> simp [hj]

/-- C17: for every 32-bit value `w` of function-select word 1, after
`INP_GPIO(16); OUT_GPIO(16)` the word is `(w AND NOT (7 << 18)) OR (1 << 18)`:
its bits 18..20 read 001, every other bit is that of `w`, every other word of
the block is unchanged, and the two stores made, the cleared word first, both
go to word 1. -/
theorem configure_pin16_output (r : RegBlock) (hw : r.mem 1 < 2 ^ 32) :
    ( OUT_GPIO ( INP_GPIO r 16) 16).mem 1 = (r.mem 1 &&& not32 (7 <<< 18)) ||| (1 <<< 18) ∧
      (( OUT_GPIO ( INP_GPIO r 16) 16).mem 1 >>> 18) &&& 7 = 1 ∧
      (∀ i, i ≠ 18 → i ≠ 19 → i ≠ 20 →
        Nat.testBit (( OUT_GPIO ( INP_GPIO r 16) 16).mem 1) i = Nat.testBit (r.mem 1) i) ∧
      (∀ j, j ≠ 1 → ( OUT_GPIO ( INP_GPIO r 16) 16).mem j = r.mem j) ∧
      ( OUT_GPIO ( INP_GPIO r 16) 16).log =
        r.log ++ [GpioEvent.write 1 (r.mem 1 &&& not32 (7 <<< 18)),
          GpioEvent.write 1 ((r.mem 1 &&& not32 (7 <<< 18)) ||| (1 <<< 18))] := by
  have hm : r.mem 1 % 2 ^ 32 = r.mem 1 := Nat.mod_eq_of_lt hw
  have e1 : not32 (7 <<< 18) = 0xFFE3FFFF := by decide
  have e2 : (1 : Nat) <<< 18 = 2 ^ 18 := by decide
  rw [configure16_eq, hm, e1, e2]
  refine ⟨by simp, ?_, ?_, ?_, rfl⟩
  · simpa using fsel16_field (r.mem 1) hw
  · intro i h18 h19 h20
    simp only [if_true]
    rw [fsel16_bit (r.mem 1) i hw]
    simp [h18, h19, h20]
  · intro j hj
    simp [hj]

/-- C17, at a word 1 with all 32 bits set: the result is `0xFFE7FFFF`, the
field of pin 16 reading 001 and every other bit still set. -/
theorem configure_pin16_output_witness :
    ( OUT_GPIO ( INP_GPIO allOnes 16) 16).mem 1 = 0xFFE7FFFF ∧
      (( OUT_GPIO ( INP_GPIO allOnes 16) 16).mem 1 >>> 18) &&& 7 = 1 :=
  have h := configure_pin16_output allOnes (by decide)
  ⟨h.1.trans (by decide), h.2.1⟩

theorem resetTrace_eq (mem : Nat → Nat) :
    resetTrace mem =
      [GpioEvent.write 1 (mem 1 % 2 ^ 32 &&& 0xFFE3FFFF),
        GpioEvent.write 1 ((mem 1 % 2 ^ 32 &&& 0xFFE3FFFF) ||| 2 ^ 18),
        GpioEvent.write 10 (2 ^ 16),
        GpioEvent.usleep 1000000,
        GpioEvent.write 7 (2 ^ 16),
        GpioEvent.usleep 50000] := by
  unfold resetTrace alamode_reset
  simp only [configure16_eq]
  simp [reg_write, usleep, GPIO_CLR, GPIO_SET]

theorem alamode_reset_log (r : RegBlock) :
    (alamode_reset r).log = r.log ++ resetTrace r.mem := by
  unfold resetTrace alamode_reset
  simp only [configure16_eq]
  simp [reg_write, usleep, GPIO_CLR, GPIO_SET]

/-- C15: whatever the block holds, one call of `alamode_reset` stores exactly
once to the clear register (word 10) and exactly once to the set register
(word 7), and the value stored is `1 << 16` both times: bit 16 and no other
bit. -/
theorem alamode_reset_set_clear_writes (mem : Nat → Nat) :
    writesTo GPIO_CLR (resetTrace mem) = [1 <<< 16] ∧
      writesTo GPIO_SET (resetTrace mem) = [1 <<< 16] ∧
      GPIO_CLR = 10 ∧ GPIO_SET = 7 ∧
      ∀ i, Nat.testBit (1 <<< 16) i = decide (i = 16) := by
  rw [resetTrace_eq]
  refine ⟨by simp [writesTo, GPIO_CLR], by simp [writesTo, GPIO_SET], rfl, rfl, ?_⟩
  intro i
  have e : (1 : Nat) <<< 16 = 2 ^ 16 := by decide
  rw [e, Nat.testBit_two_pow]
  by_cases h : i = 16
  · simp [h]
  · have h2 : ¬ 16 = i := fun x => h x.symm
    simp [h, h2]

/-- C16: the stores and sleeps of one call of `alamode_reset` are, in this
order: the store to word 1 with the field of pin 16 cleared, the store to word
1 with that field set to 001 (output), the store of `1 << 16` to the clear
register, `usleep(1000000)`, the store of `1 << 16` to the set register,
`usleep(50000)`. -/
theorem alamode_reset_trace (mem : Nat → Nat) :
    resetTrace mem =
        [GpioEvent.write 1 (mem 1 % 2 ^ 32 &&& not32 (7 <<< 18)),
          GpioEvent.write 1 ((mem 1 % 2 ^ 32 &&& not32 (7 <<< 18)) ||| (1 <<< 18)),
          GpioEvent.write GPIO_CLR (1 <<< 16),
          GpioEvent.usleep (1000 * 1000),
          GpioEvent.write GPIO_SET (1 <<< 16),
          GpioEvent.usleep (50 * 1000)] ∧
      ((mem 1 % 2 ^ 32 &&& not32 (7 <<< 18)) >>> 18) &&& 7 = 0 ∧
      (((mem 1 % 2 ^ 32 &&& not32 (7 <<< 18)) ||| (1 <<< 18)) >>> 18) &&& 7 = 1 := by
  have e1 : not32 (7 <<< 18) = 0xFFE3FFFF := by decide
  have e2 : (1 : Nat) <<< 18 = 2 ^ 18 := by decide
  have e3 : (1 : Nat) <<< 16 = 2 ^ 16 := by decide
  have hlt : mem 1 % 2 ^ 32 < 2 ^ 32 := Nat.mod_lt _ (by decide)
  rw [resetTrace_eq, e1, e2, e3]
  refine ⟨rfl, ?_, fsel16_field _ hlt⟩
  apply Nat.eq_of_testBit_eq
  intro i
  rw [Nat.testBit_and, Nat.testBit_shiftRight, Nat.testBit_and, mask16_bit]
  rcases i with _ | _ | _ | i
  · simp
  · simp
  · simp
  · have h7 : (7 : Nat) < 2 ^ (i + 3) :=
      Nat.lt_of_lt_of_le (by decide : (7 : Nat) < 2 ^ 3)
        (Nat.pow_le_pow_right (by decide) (by omega))
    have e : i + 1 + 1 + 1 = i + 3 := by omega
    rw [e, Nat.testBit_lt_two_pow h7, Bool.and_false, Nat.zero_testBit]

/-- C18: for every address `a` the allocation returns, the adjusted address is
the least multiple of 4096 not below `a` (it is `a` itself when `a` is
aligned), and the 4096-byte block starting there ends within the
`BLOCK_SIZE + (PAGE_SIZE - 1)` bytes allocated at `a`; when `open` and `malloc`
succeed, that address and the length 4096 are what `setup_io` passes to
`mmap`. -/
theorem setup_io_page_aligned (a : Nat) (open_ret : Int) (cpuinfo : Option (List Char))
    (mmap_ret : MmapCall → Int) (g : PiState) :
    alignPage a % 4096 = 0 ∧
      a ≤ alignPage a ∧
      (∀ b, a ≤ b → b % 4096 = 0 → alignPage a ≤ b) ∧
      (a % 4096 = 0 → alignPage a = a) ∧
      alignPage a + 4096 ≤ a + (BLOCK_SIZE + (PAGE_SIZE - 1)) ∧
      (0 ≤ open_ret → a ≠ 0 →
        ∃ call, mmapCallOf (setup_io open_ret cpuinfo a mmap_ret g).1 = some call ∧
          call.addr = alignPage a ∧ call.length = 4096) := by
  have hP : PAGE_SIZE = 4096 := by decide
  have hB : BLOCK_SIZE = 4096 := by decide
  have hA : alignPage a = if a % 4096 ≠ 0 then a + (4096 - a % 4096) else a := by
    unfold alignPage
    rw [hP]
  refine ⟨?_, ?_, ?_, ?_, ?_, ?_⟩
  · rw [hA]; split_ifs <;> omega
  · rw [hA]; split_ifs <;> omega
  · intro b hab hb
    rw [hA]; split_ifs <;> omega
  · intro h
    rw [hA]; split_ifs <;> omega
  · rw [hA, hP, hB]; split_ifs <;> omega
  · intro ho ha
    unfold setup_io
    rw [if_neg (not_lt.mpr ho)]
    simp only [ha, if_false]
    split_ifs
    · exact ⟨_, rfl, rfl, hB⟩
    · exact ⟨_, rfl, rfl, hB⟩

/-- C18, at the unaligned address `0x10234` with the initial globals and an
unreadable platform description: the adjusted address is `0x11000`, a multiple
of 4096, and `mmap` is asked for 4096 bytes there. -/
theorem setup_io_page_aligned_witness :
    alignPage 0x10234 % 4096 = 0 ∧
      alignPage 0x10234 + 4096 ≤ 0x10234 + (BLOCK_SIZE + (PAGE_SIZE - 1)) ∧
      ∃ call, mmapCallOf (setup_io 3 none 0x10234 (fun c => c.addr) PiState.start).1 =
          some call ∧ call.addr = alignPage 0x10234 ∧ call.length = 4096 :=
  have h := setup_io_page_aligned 0x10234 3 none (fun c => c.addr) PiState.start
  ⟨h.1, h.2.2.2.2.1, h.2.2.2.2.2 (by decide) (by decide)⟩

/-! ### Hardware revision: the revision line -/

theorem hexval_lt (c : Char) (d : Nat) (h : hexval c = some d) : d < 16 := by
  unfold hexval at h
  split_ifs at h with h1 h2 h3
  · have := h1.2
    have e : c.toNat ≤ '9'.toNat := this
    have e2 : '9'.toNat = 57 := by decide
    have e3 : '0'.toNat = 48 := by decide
    simp only [Option.some.injEq] at h
    omega
  · have e : c.toNat ≤ 'f'.toNat := h2.2
    have e2 : 'f'.toNat = 102 := by decide
    have e3 : 'a'.toNat = 97 := by decide
    simp only [Option.some.injEq] at h
    omega
  · have e : c.toNat ≤ 'F'.toNat := h3.2
    have e2 : 'F'.toNat = 70 := by decide
    have e3 : 'A'.toNat = 65 := by decide
    simp only [Option.some.injEq] at h
    omega

theorem hexval_some_ne (c k : Char) (hk : hexval k = none) (h : (hexval c).isSome = true) :
    c ≠ k := by
  intro e
  rw [e, hk] at h
  exact absurd h (by decide)

theorem hexval_not_space (c : Char) (h : (hexval c).isSome = true) : isspace c = false := by
  have h1 := hexval_some_ne c ' ' (by decide) h
  have h2 := hexval_some_ne c '\t' (by decide) h
  have h3 := hexval_some_ne c '\n' (by decide) h
  have h4 := hexval_some_ne c '\x0b' (by decide) h
  have h5 := hexval_some_ne c '\x0c' (by decide) h
  have h6 := hexval_some_ne c '\r' (by decide) h
  simp [isspace, h1, h2, h3, h4, h5, h6]

theorem hexdigits_run (hex : List Char) (c : Char) (rest : List Char) (acc cnt : Nat)
    (hhex : ∀ x ∈ hex, (hexval x).isSome = true) (hc : hexval c = none) :
    hexdigits acc cnt (hex ++ c :: rest) =
      (hex.foldl (fun a x => a * 16 + (hexval x).getD 0) acc, cnt + hex.length, c :: rest) := by
  induction hex generalizing acc cnt with
  | nil => simp [hexdigits, hc]
  | cons x xs ih =>
    have hx := hhex x (List.mem_cons_self x xs)
    obtain ⟨d, hd⟩ := Option.isSome_iff_exists.mp hx
    have ih2 := ih (acc * 16 + d) (cnt + 1) (fun y hy => hhex y (List.mem_cons_of_mem x hy))
    simp only [List.cons_append, hexdigits, hd, List.foldl_cons, Option.getD_some,
      List.length_cons]
    have e : cnt + 1 + xs.length = cnt + (xs.length + 1) := by omega
    rw [e] at ih2
    exact ih2

theorem hexNum_lt (hex : List Char) (hhex : ∀ x ∈ hex, (hexval x).isSome = true) :
    hexNum hex < 16 ^ hex.length := by
  have key : ∀ (l : List Char) (acc n : Nat), (∀ x ∈ l, (hexval x).isSome = true) →
      acc < 16 ^ n →
      l.foldl (fun a x => a * 16 + (hexval x).getD 0) acc < 16 ^ (n + l.length) := by
    intro l
    induction l with
    | nil => intro acc n _ h; simpa using h
    | cons x xs ih =>
      intro acc n hl h
      obtain ⟨d, hd⟩ := Option.isSome_iff_exists.mp (hl x (List.mem_cons_self x xs))
      have hd16 := hexval_lt x d hd
      have h2 : acc * 16 + (hexval x).getD 0 < 16 ^ (n + 1) := by
        rw [hd, Option.getD_some, Nat.pow_succ]
        omega
      have := ih (acc * 16 + (hexval x).getD 0) (n + 1)
        (fun y hy => hl y (List.mem_cons_of_mem x hy)) h2
      simp only [List.foldl_cons, List.length_cons]
      have e : n + (xs.length + 1) = n + 1 + xs.length := by omega
      rw [e]
      exact this
  have := key hex 0 0 hhex (by decide)
  simpa [hexNum] using this

theorem scan_hex_body_digits (neg : Bool) (s : List Char)
    (hx : ∀ x t, s = '0' :: x :: t → x ≠ 'x' ∧ x ≠ 'X')
    (hcnt : (hexdigits 0 0 s).2.1 ≠ 0) :
    scan_hex_body neg s =
      HexConv.value (toUnsigned neg (hexdigits 0 0 s).1) (hexdigits 0 0 s).2.2 := by
  unfold scan_hex_body
  split
  · rename_i x t
    obtain ⟨h1, h2⟩ := hx x t rfl
    simp only [h1, h2, or_self, if_false]
  · split
    · rename_i heq
      rw [heq] at hcnt
      exact absurd rfl hcnt
    · rename_i heq
      rw [heq]

theorem scan_hex_start (h : Char) (rest : List Char)
    (hs : isspace h = false) (hm : h ≠ '-') (hp : h ≠ '+') :
    scan_hex (h :: rest) = scan_hex_body false (h :: rest) := by
  unfold scan_hex
  have e : List.dropWhile isspace (h :: rest) = h :: rest := by
    simp [List.dropWhile, hs]
  rw [e]
  split
  · rename_i heq
    exact absurd heq (by simp)
  · rename_i t heq
    exact absurd (List.cons.inj heq).1 hm
  · rename_i t heq
    exact absurd (List.cons.inj heq).1 hp
  · rfl

theorem sscanf_hex_then (hex : List Char) (c : Char) (rest : List Char)
    (hne : hex ≠ []) (hhex : ∀ x ∈ hex, (hexval x).isSome = true)
    (hc : hexval c = none) (hcx : c ≠ 'x') (hcX : c ≠ 'X') :
    sscanf_x_c (hex ++ c :: rest) = (2, some (hexNum hex % 2 ^ 32), some c) := by
  have hrun := hexdigits_run hex c rest 0 0 hhex hc
  cases hex with
  | nil => exact absurd rfl hne
  | cons h hs =>
    have hh := hhex h (List.mem_cons_self h hs)
    have e1 : scan_hex (h :: hs ++ c :: rest) = scan_hex_body false (h :: hs ++ c :: rest) :=
      scan_hex_start h (hs ++ c :: rest) (hexval_not_space h hh)
        (hexval_some_ne h '-' (by decide) hh) (hexval_some_ne h '+' (by decide) hh)
    have hx : ∀ x t, h :: hs ++ c :: rest = '0' :: x :: t → x ≠ 'x' ∧ x ≠ 'X' := by
      intro x t heq
      cases hs with
      | nil =>
        have e := (List.cons.inj (List.cons.inj heq).2).1
        rw [← e]
        exact ⟨hcx, hcX⟩
      | cons y ys =>
        have e := (List.cons.inj (List.cons.inj heq).2).1
        have hy := hhex y (List.mem_cons_of_mem h (List.mem_cons_self y ys))
        rw [← e]
        exact ⟨hexval_some_ne y 'x' (by decide) hy, hexval_some_ne y 'X' (by decide) hy⟩
    have hcnt : (hexdigits 0 0 (h :: hs ++ c :: rest)).2.1 ≠ 0 := by
      rw [hrun]
      simp
    have e2 := scan_hex_body_digits false (h :: hs ++ c :: rest) hx hcnt
    unfold sscanf_x_c
    rw [e1, e2, hrun]
    simp [toUnsigned, hexNum]

theorem cstr_no_nul (l : List Char) (h : ∀ c ∈ l, c ≠ '\x00') : cstr l = l := by
  unfold cstr
  rw [List.takeWhile_eq_self_iff]
  intro c hc
  simpa using h c hc

theorem revTail_split (body hex : List Char) (c : Char) (n : Nat)
    (hn : hex.length = n) (hnul : ∀ x ∈ body ++ hex ++ [c], x ≠ '\x00') :
    revTail (body ++ hex ++ [c]) n = hex ++ [c] := by
  unfold revTail
  rw [cstr_no_nul _ hnul]
  have e : (body ++ hex ++ [c]).length - (n + 1) = body.length := by
    simp only [List.length_append, List.length_singleton]
    omega
  rw [e, List.append_assoc, List.drop_left]

theorem scanRevision_hex_line (s : Scan) (body hex : List Char)
    (hl : strncasecmp_eq "revision".toList (body ++ hex ++ ['\n']) 8 = true)
    (hnul : ∀ c ∈ body, c ≠ '\x00')
    (hhex : ∀ c ∈ hex, (hexval c).isSome = true)
    (hne : hex ≠ [])
    (hn : hex.length = s.chars) :
    (scanRevision s (body ++ hex ++ ['\n'])).rev = hexNum hex % 2 ^ 32 := by
  have hnul2 : ∀ x ∈ body ++ hex ++ ['\n'], x ≠ '\x00' := by
    intro x hx
    simp only [List.mem_append, List.mem_singleton] at hx
    rcases hx with (hx | hx) | hx
    · exact hnul x hx
    · exact hexval_some_ne x '\x00' (by decide) (hhex x hx)
    · rw [hx]; decide
  unfold scanRevision
  rw [if_pos hl, revTail_split body hex '\n' s.chars hn hnul2,
    sscanf_hex_then hex '\n' [] hne hhex (by decide) (by decide) (by decide)]
  simp

theorem take_getD_at (pre post : List (List Char)) (l : List Char) :
    (pre ++ l :: post).take pre.length = pre ∧
      (pre ++ l :: post).getD pre.length [] = l ∧
      (pre ++ l :: post).take (pre.length + 1) = pre ++ [l] := by
  refine ⟨by simp, by simp [List.getD_eq_getElem?_getD, List.getElem_append_right], ?_⟩
  rw [List.take_append]
  simp

theorem scan_upto_line (s0 : Scan) (pre : List (List Char)) (l : List Char) :
    scanLines s0 (pre ++ [l]) = scanRevision (scanModel (scanLines s0 pre) l) l := by
  rw [scanLines_append]
  rfl

/-- C11, amended: on a first call, let a buffer read from the source start
with `revision`, hold no NUL, and end in `N` hexadecimal digits followed by a
newline, `N` being the value of `chars` in that turn of the loop (4 or 6); if
no later buffer starts with `revision`, the value returned is the number those
`N` digits denote, whatever precedes them in the buffer. -/
theorem gpioHardwareRevision_revision_line (g : PiState) (content : List Char)
    (pre post : List (List Char)) (body hex : List Char)
    (hrev : g.rev = 0)
    (hlines : fileLines content = pre ++ (body ++ hex ++ ['\n']) :: post)
    (hpost : ∀ b ∈ post, strncasecmp_eq "revision".toList b 8 = false)
    (hl : strncasecmp_eq "revision".toList (body ++ hex ++ ['\n']) 8 = true)
    (hnul : ∀ c ∈ body, c ≠ '\x00')
    (hhex : ∀ c ∈ hex, (hexval c).isSome = true)
    (hN : hex.length = revWidth content g pre.length) :
    (gpioHardwareRevision (some content) g).1 = hexNum hex ∧
      (hex.length = 4 ∨ hex.length = 6) := by
  have hg : ¬ g.rev ≠ 0 := fun h => h hrev
  obtain ⟨t1, t2, -⟩ := take_getD_at pre post (body ++ hex ++ ['\n'])
  have hw : revWidth content g pre.length =
      (scanModel (scanLines ⟨g.rev, 0, g.piPeriphBase, 4⟩ pre) (body ++ hex ++ ['\n'])).chars := by
    unfold revWidth
    rw [hlines, t1, t2]
  have h46 : hex.length = 4 ∨ hex.length = 6 := by
    rw [hN, hw]
    exact scanModel_chars _ _ (scanLines_chars _ _ (Or.inl rfl))
  have hne : hex ≠ [] := by
    intro e
    rw [e] at h46
    simp at h46
  have hlt : hexNum hex < 2 ^ 32 := by
    have h1 := hexNum_lt hex hhex
    have h2 : (16 : Nat) ^ hex.length ≤ 2 ^ 32 := by
      rcases h46 with e | e <;> (rw [e]; decide)
    omega
  have hline := scanRevision_hex_line
    (scanModel (scanLines ⟨g.rev, 0, g.piPeriphBase, 4⟩ pre) (body ++ hex ++ ['\n']))
    body hex hl hnul hhex hne (hN.trans hw)
  refine ⟨?_, h46⟩
  unfold gpioHardwareRevision
  rw [if_neg hg]
  simp only [scanFile, hlines]
  have e : scanLines ⟨g.rev, 0, g.piPeriphBase, 4⟩ (pre ++ (body ++ hex ++ ['\n']) :: post) =
      scanLines (scanLines ⟨g.rev, 0, g.piPeriphBase, 4⟩ (pre ++ [body ++ hex ++ ['\n']]))
        post := by
    rw [← scanLines_append]
    simp
  rw [e, scanLines_no_revision post _ hpost, scan_upto_line, hline, Nat.mod_eq_of_lt hlt]

/-- C11, amended, at the platform description of a board of the later family:
the revision line is the fourth buffer, the width is 6 and the value returned
is `0xa01041`. -/
theorem gpioHardwareRevision_revision_line_witness :
    (gpioHardwareRevision (some pi2Cpuinfo) PiState.start).1 = hexNum "a01041".toList ∧
      hexNum "a01041".toList = 0xa01041 :=
  ⟨(gpioHardwareRevision_revision_line PiState.start pi2Cpuinfo
      ["processor\t: 0\n".toList, "model name\t: ARMv7 Processor rev 5 (v7l)\n".toList,
        "Hardware\t: BCM2709\n".toList] [] "Revision\t: ".toList "a01041".toList
      rfl (by decide) (by decide) (by decide) (by decide) (by decide) (by decide)).1,
    by decide⟩

set_option maxRecDepth 100000 in
/-- C11 as stated fails on a revision line longer than the 511 characters one
`fgets` call delivers: the description is a single line that starts with
`Revision` and ends in the four hexadecimal digits `000e` and a newline, no
architecture is recognised, and the value returned is 0, not `0xe`. -/
theorem gpioHardwareRevision_long_revision_line :
    longRevisionCpuinfo =
        "Revision\t:".toList ++ List.replicate 520 ' ' ++ "000e".toList ++ ['\n'] ∧
      longRevisionCpuinfo.count '\n' = 1 ∧
      hexNum "000e".toList = 14 ∧
      (fileLines longRevisionCpuinfo).map List.length = [511, 24] ∧
      (gpioHardwareRevision (some longRevisionCpuinfo) PiState.start).1 = 0 := by
  decide

/-- C12, amended: on a first call, when a buffer starts with `revision` and
the string handed to `sscanf` starts with a hexadecimal number followed by a
character other than a newline, `rev` is 0 at the end of that turn of the
loop, and 0 is the value returned if no later buffer starts with
`revision`. -/
theorem gpioHardwareRevision_bad_terminator (g : PiState) (content : List Char)
    (pre post : List (List Char)) (l : List Char) (v : Nat) (t : Char) (rest : List Char)
    (hrev : g.rev = 0)
    (hlines : fileLines content = pre ++ l :: post)
    (hl : strncasecmp_eq "revision".toList l 8 = true)
    (hscan : scan_hex (revTail l (revWidth content g pre.length)) = HexConv.value v (t :: rest))
    (ht : t ≠ '\n') :
    revAfter content g pre.length = 0 ∧
      ((∀ b ∈ post, strncasecmp_eq "revision".toList b 8 = false) →
        (gpioHardwareRevision (some content) g).1 = 0) := by
  have hg : ¬ g.rev ≠ 0 := fun h => h hrev
  obtain ⟨t1, t2, t3⟩ := take_getD_at pre post l
  have hw : revWidth content g pre.length =
      (scanModel (scanLines ⟨g.rev, 0, g.piPeriphBase, 4⟩ pre) l).chars := by
    unfold revWidth
    rw [hlines, t1, t2]
  rw [hw] at hscan
  have hline : (scanRevision (scanModel (scanLines ⟨g.rev, 0, g.piPeriphBase, 4⟩ pre) l) l).rev
      = 0 := by
    unfold scanRevision
    rw [if_pos hl]
    unfold sscanf_x_c
    rw [hscan]
    simp [ht]
  have hafter : revAfter content g pre.length = 0 := by
    unfold revAfter
    rw [hlines, t3, scan_upto_line, hline]
  refine ⟨hafter, ?_⟩
  intro hpost
  unfold gpioHardwareRevision
  rw [if_neg hg]
  simp only [scanFile, hlines]
  have e : scanLines ⟨g.rev, 0, g.piPeriphBase, 4⟩ (pre ++ l :: post) =
      scanLines (scanLines ⟨g.rev, 0, g.piPeriphBase, 4⟩ (pre ++ [l])) post := by
    rw [← scanLines_append]
    simp
  rw [e, scanLines_no_revision post _ hpost, scan_upto_line, hline]

/-- C12, amended, at a revision line ending in `00e!` and a newline: the
number `00e` is followed by `!`, and the value returned is 0. -/
theorem gpioHardwareRevision_bad_terminator_witness :
    scan_hex (revTail badTerminatorCpuinfo 4) = HexConv.value 14 ['!', '\n'] ∧
      revAfter badTerminatorCpuinfo PiState.start 0 = 0 ∧
      (gpioHardwareRevision (some badTerminatorCpuinfo) PiState.start).1 = 0 :=
  have h := gpioHardwareRevision_bad_terminator PiState.start badTerminatorCpuinfo
    [] [] badTerminatorCpuinfo 14 '!' ['\n'] rfl (by decide) (by decide) (by decide) (by decide)
  ⟨by decide, h.1, h.2 (fun _ hb => absurd hb (List.not_mem_nil _))⟩

/-- C12 as stated fails in both cases it spells out. When the revision line
is the last of the file and lacks its newline, `%x` converts, `%c` finds no
character, `sscanf` returns 1 and the value returned is the number read,
`0xe`. When a second revision line has no hexadecimal number at its end,
`sscanf` returns 0 and the value returned is the `0xe` of the first line. -/
theorem gpioHardwareRevision_unterminated_or_stale :
    sscanf_x_c (revTail unterminatedCpuinfo 4) = (1, some 14, none) ∧
      (gpioHardwareRevision (some unterminatedCpuinfo) PiState.start).1 = 14 ∧
      fileLines staleCpuinfo = ["Revision\t: 000e\n".toList, "Revision\t: none\n".toList] ∧
      sscanf_x_c (revTail "Revision\t: none\n".toList 4) = (0, none, none) ∧
      revAfter staleCpuinfo PiState.start 1 = 14 ∧
      (gpioHardwareRevision (some staleCpuinfo) PiState.start).1 = 14 := by
  decide

end Alamode
